import Mathlib

/-!
# Verification of the Vietnamese address-classifier matching engine

A shallow embedding, in Lean 4, of the matching engine of the
address-classifier repository (directory `Src/`): the text normalizer
(`text_normalizer.py`), the alias generator (`alias_generator.py`), the token
trie (`trie_parser.py`), the LCS matcher (`lcs_matcher.py`), the bounded
edit-distance matcher (`edit_distance_matcher.py`), the abbreviation builder
(`abbreviation_builder.py`), the admin-prefix handler
(`admin_prefix_handler.py`), the address database (`address_database.py`) and
the three-tier parser (`address_parser_v3.py`).

Python strings are modelled as `List Char` (or Lean `String` where
convenient), Python `dict`s as insertion-ordered association lists with
`List.lookup`, Python `float` scores as `ℚ` (every score compared here is an
exact small rational), and Python `None`/optional values as `Option`.
Character-class functions (`unicodedata.category`, `str.lower`) are modelled
by explicit tables restricted to the repertoire the repository manipulates:
the printable ASCII range plus the Vietnamese letters of
`VIETNAMESE_CHAR_MAP`; any other code point is treated as an unmodelled
(removed) character.
-/

namespace AddrClassifier

/-! ## Python character primitives -/

/-- Python whitespace characters recognised by `str.split()` / `str.strip()` /
regex `\s` in the ASCII range: space, tab, newline, carriage return, vertical
tab, form feed. -/
def isPySpace (c : Char) : Bool :=
  c = ' ' || c = '\t' || c = '\n' || c = '\r' || c = Char.ofNat 11 || c = Char.ofNat 12

/-- Lowercase ASCII letters. -/
def asciiLowerChars : List Char := "abcdefghijklmnopqrstuvwxyz".toList

/-- Uppercase ASCII letters. -/
def asciiUpperChars : List Char := "ABCDEFGHIJKLMNOPQRSTUVWXYZ".toList

/-- ASCII digits. -/
def digitChars : List Char := "0123456789".toList

/-- Python `string.punctuation`, in source order. -/
def asciiPunctChars : List Char := "!\"#$%&'()*+,-./:;<=>?@[\\]^_`\x7b|\x7d~".toList

/-- The members of `string.punctuation` whose Unicode general category starts
with `P` (the remaining nine, `$ + < = > ^ ` | ~`, are symbols `S`). -/
def asciiPunctP : List Char := "!\"#%&'()*,-./:;?@[\\]_\x7b\x7d".toList

/-- The members of `string.punctuation` whose Unicode general category starts
with `S`. -/
def asciiSymS : List Char := "$+<=>^`|~".toList

/-- The Vietnamese character map of `text_normalizer.py`
(`VIETNAMESE_CHAR_MAP`, 134 entries, source order: lowercase block then
uppercase block).  The identical table appears in `trie_parser.py` and
`archive/normalizer.py`. -/
def vnCharMap : List (Char × Char) := [('à', 'a'), ('á', 'a'), ('ả', 'a'), ('ã', 'a'), ('ạ', 'a'), ('ă', 'a'), ('ằ', 'a'), ('ắ', 'a'), ('ẳ', 'a'), ('ẵ', 'a'), ('ặ', 'a'), ('â', 'a'), ('ầ', 'a'), ('ấ', 'a'), ('ẩ', 'a'), ('ẫ', 'a'), ('ậ', 'a'), ('đ', 'd'), ('è', 'e'), ('é', 'e'), ('ẻ', 'e'), ('ẽ', 'e'), ('ẹ', 'e'), ('ê', 'e'), ('ề', 'e'), ('ế', 'e'), ('ể', 'e'), ('ễ', 'e'), ('ệ', 'e'), ('ì', 'i'), ('í', 'i'), ('ỉ', 'i'), ('ĩ', 'i'), ('ị', 'i'), ('ò', 'o'), ('ó', 'o'), ('ỏ', 'o'), ('õ', 'o'), ('ọ', 'o'), ('ô', 'o'), ('ồ', 'o'), ('ố', 'o'), ('ổ', 'o'), ('ỗ', 'o'), ('ộ', 'o'), ('ơ', 'o'), ('ờ', 'o'), ('ớ', 'o'), ('ở', 'o'), ('ỡ', 'o'), ('ợ', 'o'), ('ù', 'u'), ('ú', 'u'), ('ủ', 'u'), ('ũ', 'u'), ('ụ', 'u'), ('ư', 'u'), ('ừ', 'u'), ('ứ', 'u'), ('ử', 'u'), ('ữ', 'u'), ('ự', 'u'), ('ỳ', 'y'), ('ý', 'y'), ('ỷ', 'y'), ('ỹ', 'y'), ('ỵ', 'y'), ('À', 'a'), ('Á', 'a'), ('Ả', 'a'), ('Ã', 'a'), ('Ạ', 'a'), ('Ă', 'a'), ('Ằ', 'a'), ('Ắ', 'a'), ('Ẳ', 'a'), ('Ẵ', 'a'), ('Ặ', 'a'), ('Â', 'a'), ('Ầ', 'a'), ('Ấ', 'a'), ('Ẩ', 'a'), ('Ẫ', 'a'), ('Ậ', 'a'), ('Đ', 'd'), ('È', 'e'), ('É', 'e'), ('Ẻ', 'e'), ('Ẽ', 'e'), ('Ẹ', 'e'), ('Ê', 'e'), ('Ề', 'e'), ('Ế', 'e'), ('Ể', 'e'), ('Ễ', 'e'), ('Ệ', 'e'), ('Ì', 'i'), ('Í', 'i'), ('Ỉ', 'i'), ('Ĩ', 'i'), ('Ị', 'i'), ('Ò', 'o'), ('Ó', 'o'), ('Ỏ', 'o'), ('Õ', 'o'), ('Ọ', 'o'), ('Ô', 'o'), ('Ồ', 'o'), ('Ố', 'o'), ('Ổ', 'o'), ('Ỗ', 'o'), ('Ộ', 'o'), ('Ơ', 'o'), ('Ờ', 'o'), ('Ớ', 'o'), ('Ở', 'o'), ('Ỡ', 'o'), ('Ợ', 'o'), ('Ù', 'u'), ('Ú', 'u'), ('Ủ', 'u'), ('Ũ', 'u'), ('Ụ', 'u'), ('Ư', 'u'), ('Ừ', 'u'), ('Ứ', 'u'), ('Ử', 'u'), ('Ữ', 'u'), ('Ự', 'u'), ('Ỳ', 'y'), ('Ý', 'y'), ('Ỷ', 'y'), ('Ỹ', 'y'), ('Ỵ', 'y')]

/-- The lowercase keys of `vnCharMap` (accented Vietnamese lowercase letters). -/
def vietLowerChars : List Char := (vnCharMap.take 67).map Prod.fst

/-- The uppercase keys of `vnCharMap` (accented Vietnamese uppercase letters). -/
def vietUpperChars : List Char := (vnCharMap.drop 67).map Prod.fst

/-- Uppercase-to-lowercase table for the accented Vietnamese letters, as
computed by Python `str.lower`. -/
def vietUpperLower : List (Char × Char) := [('À', 'à'), ('Á', 'á'), ('Ả', 'ả'), ('Ã', 'ã'), ('Ạ', 'ạ'), ('Ă', 'ă'), ('Ằ', 'ằ'), ('Ắ', 'ắ'), ('Ẳ', 'ẳ'), ('Ẵ', 'ẵ'), ('Ặ', 'ặ'), ('Â', 'â'), ('Ầ', 'ầ'), ('Ấ', 'ấ'), ('Ẩ', 'ẩ'), ('Ẫ', 'ẫ'), ('Ậ', 'ậ'), ('Đ', 'đ'), ('È', 'è'), ('É', 'é'), ('Ẻ', 'ẻ'), ('Ẽ', 'ẽ'), ('Ẹ', 'ẹ'), ('Ê', 'ê'), ('Ề', 'ề'), ('Ế', 'ế'), ('Ể', 'ể'), ('Ễ', 'ễ'), ('Ệ', 'ệ'), ('Ì', 'ì'), ('Í', 'í'), ('Ỉ', 'ỉ'), ('Ĩ', 'ĩ'), ('Ị', 'ị'), ('Ò', 'ò'), ('Ó', 'ó'), ('Ỏ', 'ỏ'), ('Õ', 'õ'), ('Ọ', 'ọ'), ('Ô', 'ô'), ('Ồ', 'ồ'), ('Ố', 'ố'), ('Ổ', 'ổ'), ('Ỗ', 'ỗ'), ('Ộ', 'ộ'), ('Ơ', 'ơ'), ('Ờ', 'ờ'), ('Ớ', 'ớ'), ('Ở', 'ở'), ('Ỡ', 'ỡ'), ('Ợ', 'ợ'), ('Ù', 'ù'), ('Ú', 'ú'), ('Ủ', 'ủ'), ('Ũ', 'ũ'), ('Ụ', 'ụ'), ('Ư', 'ư'), ('Ừ', 'ừ'), ('Ứ', 'ứ'), ('Ử', 'ử'), ('Ữ', 'ữ'), ('Ự', 'ự'), ('Ỳ', 'ỳ'), ('Ý', 'ý'), ('Ỷ', 'ỷ'), ('Ỹ', 'ỹ'), ('Ỵ', 'ỵ')]

/-- First letter of the Unicode general category (`unicodedata.category(c)[0]`),
modelled for the printable ASCII range and the Vietnamese letters above; every
other code point is mapped to the unmodelled category `C` (and is therefore
removed by the symbol filter of `TextNormalizer._remove_special_symbols`,
which keeps only `L`, `N`, `Z`, `P`). -/
def pyCategory (c : Char) : Char :=
  if c = ' ' then 'Z'
  else if asciiLowerChars.contains c || asciiUpperChars.contains c then 'L'
  else if digitChars.contains c then 'N'
  else if asciiPunctP.contains c then 'P'
  else if asciiSymS.contains c then 'S'
  else if vietLowerChars.contains c || vietUpperChars.contains c then 'L'
  else 'C'

/-- `unicodedata.category(c)[0] in {'L','N','Z','P'}`, the filter used by
`TextNormalizer._remove_special_symbols`. -/
def allowedCat (c : Char) : Bool :=
  pyCategory c = 'L' || pyCategory c = 'N' || pyCategory c = 'Z' || pyCategory c = 'P'

/-- Python `str.lower`, modelled on ASCII letters and the accented Vietnamese
letters; other characters are left unchanged. -/
def pyLower (c : Char) : Char :=
  match (asciiUpperChars.zip asciiLowerChars).lookup c with
  | some l => l
  | none =>
    match vietUpperLower.lookup c with
    | some l => l
    | none => c

/-- `str.strip()`: drop leading and trailing whitespace. -/
def pyStrip (s : List Char) : List Char :=
  ((s.reverse.dropWhile isPySpace).reverse).dropWhile isPySpace

/-- `text.split()` helper: accumulate the current (reversed) token. -/
def pySplitGo : List Char → List Char → List String
  | [], acc => if acc.isEmpty then [] else [String.mk acc.reverse]
  | c :: cs, acc =>
    if isPySpace c then
      if acc.isEmpty then pySplitGo cs [] else String.mk acc.reverse :: pySplitGo cs []
    else pySplitGo cs (c :: acc)

/-- Python `text.split()` (split on whitespace runs, discarding empties). -/
def pySplit (s : String) : List String := pySplitGo s.toList []

/-- Python `" ".join(tokens)`. -/
def joinSpace (tokens : List String) : String := String.intercalate " " tokens

/-- Python truthiness of an `Optional[str]`: `None` and the empty string are
falsy. -/
def pyTruthy : Option String → Bool
  | none => false
  | some s => s ≠ ""

/-! ## `edit_distance_matcher.py` — bounded edit distance

`bounded_edit_distance(s, t, max_k)` translated statement by statement.  The
two DP rows are Python lists that are reused by swapping (`prev, curr = curr,
prev`), so cells outside the computed band keep whatever value the buffer held
before — this buffer reuse is modelled exactly.  `min_in_row` starts at
`float('inf')`, modelled as `none`.  The guards `j > 0` / `j <= m` of the
source are always true on the iterated range `j ∈ [max(1, i-k), min(m, i+k)]`
and are therefore not repeated here.  List reads use `getD` with an arbitrary
default; every index read by the algorithm is in range. -/

/-- One row of the banded DP: returns the updated `curr` buffer and the row
minimum (`none` = `float('inf')`, i.e. no cell computed). -/
def bedStep (s t : List Char) (k i : Nat) (prev curr : List Nat) :
    List Nat × Option Nat :=
  let curr := curr.set 0 i
  let start := max 1 (i - k)
  let stop := min t.length (i + k)
  let js := (List.range (stop + 1 - start)).map (· + start)
  js.foldl
    (fun acc j =>
      let c := acc.1
      let v :=
        if s.getD (i - 1) ' ' = t.getD (j - 1) ' ' then prev.getD (j - 1) 0
        else 1 + min (prev.getD (j - 1) 0) (min (prev.getD j 0) (c.getD (j - 1) 0))
      (c.set j v, some (match acc.2 with | none => v | some w => min w v)))
    (curr, none)

/-- The main DP loop of `bounded_edit_distance`: rows `i = 1 .. n`, with early
return `k + 1` when the row minimum exceeds `k`, and buffer swap between rows.
`fuel` counts the remaining rows (`n + 1 - i`); when exhausted the answer is
`prev[m]` (the last computed row after the final swap). -/
def bedGo (s t : List Char) (k m : Nat) : Nat → Nat → List Nat → List Nat → Nat
  | 0, _, prev, _ => prev.getD m 0
  | fuel + 1, i, prev, curr =>
    let (curr2, mr) := bedStep s t k i prev curr
    if (match mr with | none => true | some v => v > k) then k + 1
    else bedGo s t k m fuel (i + 1) curr2 prev

/-- `bounded_edit_distance(s, t, max_k)` from `edit_distance_matcher.py`. -/
def boundedEditDistance (s t : List Char) (maxK : Nat) : Nat :=
  let n := s.length
  let m := t.length
  if ((n : ℤ) - m).natAbs > maxK then maxK + 1
  else
    let prev := List.range (min m maxK + 1) ++ List.replicate (m - maxK) (maxK + 1)
    let curr := List.replicate (m + 1) 0
    bedGo s t maxK m n 1 prev curr

/-- Reference specification: the Levenshtein distance, by the textbook
recursion, with enough fuel to be total and kernel-computable. -/
def levFuel : Nat → List Char → List Char → Nat
  | 0, s, t => s.length + t.length
  | _ + 1, [], t => t.length
  | _ + 1, a :: s, [] => (a :: s).length
  | f + 1, a :: s, b :: t =>
    if a = b then levFuel f s t
    else 1 + min (levFuel f s (b :: t)) (min (levFuel f (a :: s) t) (levFuel f s t))

/-- The Levenshtein distance between two strings. -/
def levenshtein (s t : List Char) : Nat := levFuel (s.length + t.length) s t

/-- Sanity: the docstring examples of `bounded_edit_distance` hold in the
embedding. -/
theorem bed_docstring_examples :
    boundedEditDistance "cat".toList "bat".toList 2 = 1 ∧
    boundedEditDistance "ha nol".toList "ha noi".toList 2 = 1 ∧
    boundedEditDistance "test".toList "test".toList 2 = 0 ∧
    boundedEditDistance "abc".toList "xyz".toList 2 = 3 := by
  decide

/-! ## `trie_parser.py` — character trie -/

/-- `TrieNode`: children keyed by character (insertion-ordered dict), an
end-of-word flag, and the stored display value. -/
inductive TrieNode where
  | node (children : List (Char × TrieNode)) (isEnd : Bool) (value : Option String)

/-- A fresh `TrieNode()`. -/
def TrieNode.empty : TrieNode := .node [] false none

/-- Replace the binding for `c` in a children list (keeping its position), or
append a new binding — Python dict assignment semantics. -/
def setChild : List (Char × TrieNode) → Char → TrieNode → List (Char × TrieNode)
  | [], c, n => [(c, n)]
  | (d, m) :: rest, c, n =>
    if d = c then (d, n) :: rest else (d, m) :: setChild rest c n

/-- `Trie.insert`, walking the characters of the normalized key; at the final
node it sets `is_end = True` and overwrites `value` with the new one. -/
def insertAux : TrieNode → List Char → String → TrieNode
  | .node ch _ _, [], val => .node ch true (some val)
  | .node ch e v, c :: cs, val =>
    let child := match ch.lookup c with | some n => n | none => TrieNode.empty
    .node (setChild ch c (insertAux child cs val)) e v

/-- `Trie.search`: exact walk; return `value` only at an end node. -/
def searchAux : TrieNode → List Char → Option String
  | .node _ e v, [] => if e then v else none
  | .node ch _ _, c :: cs =>
    match ch.lookup c with
    | some n => searchAux n cs
    | none => none

/-- The `Trie` wrapper class. -/
structure Trie where
  root : TrieNode

/-- An empty `Trie()`. -/
def Trie.empty : Trie := ⟨TrieNode.empty⟩

/-- `Trie.insert(normalized_word, original_value)`. -/
def Trie.insert (t : Trie) (key val : String) : Trie := ⟨insertAux t.root key.toList val⟩

/-- `Trie.search(normalized_word)`. -/
def Trie.search (t : Trie) (key : String) : Option String := searchAux t.root key.toList

/-- `range(a, b)` as a list. -/
def pyRange (a b : Nat) : List Nat := (List.range (b - a)).map (· + a)

/-- `Trie.search_in_text(text)`: split into tokens, try every window of 1–6
tokens, and record `(value, i, j)` for every hit whose value is truthy
(`if result:`). -/
def Trie.searchInText (t : Trie) (text : String) : List (String × Nat × Nat) :=
  let tokens := pySplit text
  let n := tokens.length
  (List.range n).flatMap (fun i =>
    (pyRange (i + 1) (min (i + 7) (n + 1))).filterMap (fun j =>
      let cand := joinSpace ((tokens.drop i).take (j - i))
      match t.search cand with
      | some v => if v ≠ "" then some (v, i, j) else none
      | none => none))

theorem trie_basic_example :
    ((Trie.empty.insert "ha noi" "Hà Nội").insert "da nang" "Đà Nẵng").search "ha noi"
      = some "Hà Nội" := by decide

/-! ### Trie lemmas (claim C5) -/

/-- Looking up the child just written by `setChild` returns it. -/
theorem lookup_setChild (ch : List (Char × TrieNode)) (c : Char) (n : TrieNode) :
    (setChild ch c n).lookup c = some n := by
  induction ch with
  | nil => simp [setChild, List.lookup]
  | cons hd tl ih =>
    obtain ⟨d, m⟩ := hd
    by_cases h : d = c
    · simp [setChild, h, List.lookup]
    · have hcd : (c == d) = false := beq_eq_false_iff_ne.mpr (fun hc => h hc.symm)
      simp [setChild, h, List.lookup, hcd, ih]

/-- Writing the same key twice keeps only the second write. -/
theorem setChild_setChild (ch : List (Char × TrieNode)) (c : Char) (n₁ n₂ : TrieNode) :
    setChild (setChild ch c n₁) c n₂ = setChild ch c n₂ := by
  induction ch with
  | nil => simp [setChild]
  | cons hd tl ih =>
    obtain ⟨d, m⟩ := hd
    by_cases h : d = c
    · simp [setChild, h]
    · simp [setChild, h, ih]

/-- After `insert key v`, `search key` returns `v`: the value stored at the
end node is the most recently inserted one. -/
theorem searchAux_insertAux (key : List Char) : ∀ (t : TrieNode) (v : String),
    searchAux (insertAux t key v) key = some v := by
  induction key with
  | nil => intro t v; obtain ⟨ch, e, w⟩ := t; simp [insertAux, searchAux]
  | cons c cs ih =>
    intro t v
    obtain ⟨ch, e, w⟩ := t
    simp only [insertAux, searchAux, lookup_setChild]
    exact ih _ v

/-- Re-inserting the same `(key, value)` pair produces a structurally
identical trie. -/
theorem insertAux_insertAux_same (key : List Char) : ∀ (t : TrieNode) (v : String),
    insertAux (insertAux t key v) key v = insertAux t key v := by
  induction key with
  | nil => intro t v; obtain ⟨ch, e, w⟩ := t; simp [insertAux]
  | cons c cs ih =>
    intro t v
    obtain ⟨ch, e, w⟩ := t
    simp only [insertAux, lookup_setChild, setChild_setChild]
    congr 1
    exact congrArg (setChild ch c) (ih _ v)

/-- C5 (amended): after `insert(k, v1)` then `insert(k, v2)`, `search(k)`
returns `v2` — the LAST inserted value wins, because `Trie.insert`
unconditionally overwrites `node.value` (`trie_parser.py` line 153) —
and re-inserting the same `(k, v)` pair leaves the trie unchanged
(idempotent). -/
theorem c5_trie_last_insert_wins_and_idempotent
    (t : Trie) (k v1 v2 : String) :
    ((t.insert k v1).insert k v2).search k = some v2 ∧
    (t.insert k v1).insert k v1 = t.insert k v1 := by
  refine ⟨searchAux_insertAux _ _ _, ?_⟩
  show Trie.mk (insertAux (insertAux t.root k.toList v1) k.toList v1) = _
  rw [insertAux_insertAux_same]
  rfl

/-- C5 counterexample: the claim "the first inserted value wins" is false —
inserting `"a"` then `"b"` under the same key makes lookup return `"b"`,
not `"a"`. -/
theorem c5_counterexample :
    ((Trie.empty.insert "k" "a").insert "k" "b").search "k" = some "b" ∧
    ¬ ((Trie.empty.insert "k" "a").insert "k" "b").search "k" = some "a" := by
  decide

/-! ### Claim C4: `bounded_edit_distance` vs the true Levenshtein distance -/

/-- C4 (code bug): at `s = "ax"`, `t = "aaab"`, `k = 2` the true Levenshtein
distance is `3 > k`, so the function's documented contract ("Edit distance if
≤ max_k, otherwise max_k+1") requires the answer `3`; the code returns `1`.
Cause: in row `i`, the cell `prev[i+k]` read by the `delete` branch lies one
past the band of row `i-1` and still holds a stale `0` from the initial
`curr = [0] * (m + 1)` buffer (the two row buffers are reused by swapping). -/
theorem c4_bounded_edit_distance_stale_band_bug :
    boundedEditDistance "ax".toList "aaab".toList 2 = 1 ∧
    levenshtein "ax".toList "aaab".toList = 3 := by
  decide

/-! ## `lcs_matcher.py` — token-sequence LCS matcher

`compute_lcs_length` fills the classic `(n+1) × (m+1)` DP table; it is
embedded here in the equivalent two-row rolling form (`dp[i][j]` values are
identical to the source's full table).  Scores are Python floats in the
source; they are modelled as exact rationals — every score appearing in the
claims is a small dyadic-or-fifths rational that floats also represent and
compare exactly. -/

/-- One DP row step: given the tail of the previous row starting at `j-1`,
the value to the left in the current row, the token `a = seq1[i-1]` and the
remaining tokens of `seq2`, produce the current row from index `j` on. -/
def lcsRowGo : List Nat → Nat → String → List String → List Nat
  | _, _, _, [] => []
  | prev, left, a, b :: bs =>
    let pjm1 := prev.headD 0
    let pj := (prev.drop 1).headD 0
    let v := if a = b then pjm1 + 1 else max pj left
    v :: lcsRowGo (prev.drop 1) v a bs

/-- The full current row (index 0 is the base case `0`). -/
def lcsRowFull (prev : List Nat) (a : String) (seq2 : List String) : List Nat :=
  0 :: lcsRowGo prev 0 a seq2

/-- `LCSMatcher.compute_lcs_length(seq1, seq2)`: the DP recurrence
`dp[i][j] = dp[i-1][j-1] + 1` on a match, else `max(dp[i-1][j], dp[i][j-1])`;
returns `dp[n][m]`. -/
def lcsLength (seq1 seq2 : List String) : Nat :=
  (seq1.foldl (fun row a => lcsRowFull row a seq2)
    (List.replicate (seq2.length + 1) 0)).getLastD 0

/-- `LCSMatcher.compute_lcs_similarity`: `0` when either side is empty, else
`2 · LCS / (|input| + |candidate|)`. -/
def lcsSimilarity (input cand : List String) : ℚ :=
  if input.isEmpty || cand.isEmpty then 0
  else (2 * lcsLength input cand : ℚ) / ((input.length : ℚ) + (cand.length : ℚ))

/-- The `LCSMatch` dataclass. -/
structure LCSMatch where
  entity_name : String
  entity_type : String
  similarity_score : ℚ
  lcs_length : Nat
deriving DecidableEq

/-- The candidate loop of `LCSMatcher.find_best_match`: a candidate replaces
the current best iff `score > best_score and score >= threshold`. -/
def lcsGo (th : ℚ) (input : List String) (etype : String) :
    Option LCSMatch → ℚ → List (String × List String) → Option LCSMatch
  | best, _, [] => best
  | best, bestScore, (name, toks) :: rest =>
    let score := lcsSimilarity input toks
    if score > bestScore ∧ score ≥ th then
      lcsGo th input etype (some ⟨name, etype, score, lcsLength input toks⟩) score rest
    else lcsGo th input etype best bestScore rest

/-- `LCSMatcher.find_best_match(input_tokens, candidates, entity_type)` with
`best_match = None`, `best_score = 0.0` initially. -/
def findBestMatchLcs (th : ℚ) (input : List String)
    (cands : List (String × List String)) (etype : String) : Option LCSMatch :=
  lcsGo th input etype none 0 cands

theorem lcs_docstring_example :
    lcsLength ["ha", "noi", "nam", "tu", "liem"] ["nam", "tu", "liem"] = 3 ∧
    lcsSimilarity ["cau", "dien", "ha", "noi"] ["cau", "dien"] = 2/3 := by
  constructor
  · decide
  · have h2 : lcsLength ["cau", "dien", "ha", "noi"] ["cau", "dien"] = 2 := by decide
    simp [lcsSimilarity, h2]
    norm_num

/-- The acceptance condition of the candidate loop. -/
def lcsWins (th : ℚ) (input : List String) (sc : ℚ) (c : String × List String) : Prop :=
  lcsSimilarity input c.2 > sc ∧ lcsSimilarity input c.2 ≥ th

/-- LCS similarities are nonnegative. -/
theorem lcsSimilarity_nonneg (input cand : List String) : 0 ≤ lcsSimilarity input cand := by
  unfold lcsSimilarity
  split
  · exact le_refl 0
  · apply div_nonneg
    · positivity
    · positivity

/-- Characterization of the candidate loop: it returns `none` iff it started
with `none` and no candidate passed the acceptance test; when it returns
`some m`, either the initial best survived untouched, or `m` is built from a
candidate whose similarity strictly exceeds everything before it and weakly
dominates everything after it. -/
theorem lcsGo_char (th : ℚ) (input : List String) (etype : String) :
    ∀ (cands : List (String × List String)) (best : Option LCSMatch) (score : ℚ),
      (lcsGo th input etype best score cands = none →
        best = none ∧ ∀ c ∈ cands, ¬ lcsWins th input score c) ∧
      (∀ m, lcsGo th input etype best score cands = some m →
        (best = some m ∧ ∀ c ∈ cands, ¬ lcsWins th input score c) ∨
        (∃ pre c suf, cands = pre ++ c :: suf ∧
          m.entity_name = c.1 ∧ m.entity_type = etype ∧
          m.similarity_score = lcsSimilarity input c.2 ∧
          th ≤ m.similarity_score ∧ score < m.similarity_score ∧
          (∀ x ∈ pre, lcsSimilarity input x.2 < m.similarity_score) ∧
          (∀ x ∈ suf, lcsSimilarity input x.2 ≤ m.similarity_score))) := by
  intro cands
  induction cands with
  | nil =>
    intro best score
    constructor
    · intro h
      exact ⟨h, by simp⟩
    · intro m h
      left
      exact ⟨h, by simp⟩
  | cons hd rest ih =>
    intro best score
    obtain ⟨name, toks⟩ := hd
    by_cases hw : lcsSimilarity input toks > score ∧ lcsSimilarity input toks ≥ th
    · -- accepted: loop continues with the new match and score
      have hunfold : lcsGo th input etype best score ((name, toks) :: rest) =
          lcsGo th input etype
            (some ⟨name, etype, lcsSimilarity input toks, lcsLength input toks⟩)
            (lcsSimilarity input toks) rest := by
        simp only [lcsGo, if_pos hw]
      constructor
      · intro h
        rw [hunfold] at h
        obtain ⟨hbest, -⟩ := (ih _ _).1 h
        exact absurd hbest (by simp)
      · intro m h
        rw [hunfold] at h
        right
        rcases (ih _ _).2 m h with ⟨hbest, hall⟩ | ⟨pre, c, suf, hsplit, h1, h2, h3, h4, h5, h6, h7⟩
        · -- the head candidate is the final winner
          injection hbest with hm
          subst hm
          refine ⟨[], (name, toks), rest, by simp, rfl, rfl, rfl, hw.2, hw.1, ?_, ?_⟩
          · intro x hx; cases hx
          · intro x hx
            by_contra hgt
            push_neg at hgt
            exact hall x hx ⟨hgt, le_trans hw.2 (le_of_lt hgt)⟩
        · -- a later candidate is the final winner
          refine ⟨(name, toks) :: pre, c, suf, by simp [hsplit], h1, h2, h3, h4, ?_, ?_, h7⟩
          · exact lt_trans hw.1 h5
          · intro x hx
            rcases List.mem_cons.mp hx with rfl | hx
            · exact h5
            · exact h6 x hx
    · -- rejected: loop continues unchanged
      have hunfold : lcsGo th input etype best score ((name, toks) :: rest) =
          lcsGo th input etype best score rest := by
        simp only [lcsGo, if_neg hw]
      constructor
      · intro h
        rw [hunfold] at h
        obtain ⟨hbest, hall⟩ := (ih _ _).1 h
        refine ⟨hbest, ?_⟩
        intro c hc
        rcases List.mem_cons.mp hc with rfl | hc
        · exact hw
        · exact hall c hc
      · intro m h
        rw [hunfold] at h
        rcases (ih _ _).2 m h with ⟨hbest, hall⟩ | ⟨pre, c, suf, hsplit, h1, h2, h3, h4, h5, h6, h7⟩
        · left
          refine ⟨hbest, ?_⟩
          intro c hc
          rcases List.mem_cons.mp hc with rfl | hc
          · exact hw
          · exact hall c hc
        · right
          refine ⟨(name, toks) :: pre, c, suf, by simp [hsplit], h1, h2, h3, h4, h5, ?_, h7⟩
          intro x hx
          rcases List.mem_cons.mp hx with rfl | hx
          · -- the rejected head has similarity ≤ score < m's, or below threshold ≤ m's
            rcases not_and_or.mp hw with hle | hth
            · push_neg at hle
              exact lt_of_le_of_lt hle h5
            · push_neg at hth
              exact lt_of_lt_of_le hth h4
          · exact h6 x hx

/-- C8 (amended): `find_best_match` returns `None` exactly when every
candidate's similarity is below the (positive) threshold; otherwise it
returns a candidate of maximal similarity `2·LCS/(|input|+|candidate|)`,
breaking ties between equal-similarity candidates in favour of the EARLIEST
candidate in list order (not the one with the fewest tokens: the loop
replaces the incumbent only on `score > best_score`). -/
theorem c8_lcs_best_match_maximal_earliest (th : ℚ) (hth : 0 < th)
    (input : List String) (cands : List (String × List String)) (etype : String) :
    (findBestMatchLcs th input cands etype = none ↔
      ∀ c ∈ cands, lcsSimilarity input c.2 < th) ∧
    (∀ m, findBestMatchLcs th input cands etype = some m →
      th ≤ m.similarity_score ∧ m.entity_type = etype ∧
      (∀ c ∈ cands, lcsSimilarity input c.2 ≤ m.similarity_score) ∧
      ∃ pre c suf, cands = pre ++ c :: suf ∧ m.entity_name = c.1 ∧
        m.similarity_score = lcsSimilarity input c.2 ∧
        ∀ x ∈ pre, lcsSimilarity input x.2 < m.similarity_score) := by
  have H := lcsGo_char th input etype cands none 0
  constructor
  · constructor
    · intro h
      obtain ⟨-, hall⟩ := H.1 h
      intro c hc
      by_contra hge
      push_neg at hge
      exact hall c hc ⟨lt_of_lt_of_le hth hge, hge⟩
    · intro hall
      cases hres : findBestMatchLcs th input cands etype with
      | none => rfl
      | some m =>
        rcases H.2 m hres with ⟨hbest, -⟩ | ⟨pre, c, suf, hsplit, h1, h2, h3, h4, h5, h6, h7⟩
        · exact absurd hbest (by simp)
        · have hc : c ∈ cands := by
            rw [hsplit]
            exact List.mem_append_right _ (List.mem_cons_self _ _)
          have hlt := hall c hc
          rw [← h3] at hlt
          exact absurd h4 (not_le.mpr hlt)
  · intro m hres
    rcases H.2 m hres with ⟨hbest, -⟩ | ⟨pre, c, suf, hsplit, h1, h2, h3, h4, h5, h6, h7⟩
    · exact absurd hbest (by simp)
    · refine ⟨h4, h2, ?_, pre, c, suf, hsplit, h1, h3, h6⟩
      intro x hx
      rw [hsplit] at hx
      rcases List.mem_append.mp hx with hx | hx
      · exact le_of_lt (h6 x hx)
      · rcases List.mem_cons.mp hx with rfl | hx
        · exact le_of_eq h3.symm
        · exact h7 x hx

/-- C8 counterexample: both candidates have similarity `1/2 ≥ 0.4`, the
second ("SHORT") has 2 tokens against the first's 6, yet `find_best_match`
returns the first-listed "LONG" — the tie is NOT broken in favour of the
candidate with the fewest tokens. -/
theorem c8_counterexample :
    lcsSimilarity ["a", "b"] ["a", "b", "x", "y", "z", "w"] = 1/2 ∧
    lcsSimilarity ["a", "b"] ["a", "x"] = 1/2 ∧
    (findBestMatchLcs (2/5) ["a", "b"]
        [("LONG", ["a", "b", "x", "y", "z", "w"]), ("SHORT", ["a", "x"])]
        "district").map LCSMatch.entity_name = some "LONG" := by
  have hL : lcsSimilarity ["a", "b"] ["a", "b", "x", "y", "z", "w"] = 1/2 := by
    have h : lcsLength ["a", "b"] ["a", "b", "x", "y", "z", "w"] = 2 := by decide
    simp [lcsSimilarity, h]
    norm_num
  have hS : lcsSimilarity ["a", "b"] ["a", "x"] = 1/2 := by
    have h : lcsLength ["a", "b"] ["a", "x"] = 1 := by decide
    simp [lcsSimilarity, h]
    norm_num
  refine ⟨hL, hS, ?_⟩
  simp only [findBestMatchLcs, lcsGo, hL, hS]
  norm_num

/-- Witness for `c8_lcs_best_match_maximal_earliest` at a concrete instance. -/
theorem c8_amended_witness :
    findBestMatchLcs (2/5 : ℚ) ["q"] [("X", ["z"])] "province" = none := by
  apply (c8_lcs_best_match_maximal_earliest (2/5) (by norm_num) ["q"] [("X", ["z"])] "province").1.mpr
  intro c hc
  have hc0 : c = ("X", ["z"]) := by simpa using hc
  subst hc0
  have h : lcsLength ["q"] ["z"] = 0 := by decide
  simp [lcsSimilarity, h]

/-! ## `abbreviation_builder.py` — dynamic abbreviation dictionary

`_build_abbreviations_for_level` reads one name per line from a text file,
normalizes each line with `archive.normalizer.normalize_text` under an empty
`NormalizationConfig`, generates key strings with `_generate_initials`, and
builds the reverse maps.  The file read is replaced by the list of its lines,
and the normalizer call is abstracted as the parameter `normalizeF`; the
claims are settled for every choice of `normalizeF` (the line
`"ho chi minh"` used in the concrete instances is a fixed point of the
archive normalizer: lowercase ASCII, no abbreviation, no expansion pattern,
no admin-prefix token, no punctuation).

`t[0]` on a token is modelled as `take 1` (tokens produced by `split()` are
never empty, so the truncation case is unreachable). -/

/-- Python `t[0]` as a 1-character string. -/
def firstCharStr (t : String) : String := String.mk (t.toList.take 1)

/-- `AbbreviationBuilder._generate_initials(normalized_name)`: `[]` for an
empty name, the token itself for a single token, and otherwise exactly three
keys — bare initials, dotted initials, no-space compaction. -/
def generateInitials (nm : String) : List String :=
  let tokens := pySplit nm
  if tokens.length = 0 then []
  else if tokens.length = 1 then [tokens.headD ""]
  else
    [String.join (tokens.map firstCharStr),
     String.intercalate "." (tokens.map firstCharStr),
     String.join tokens]

/-- `defaultdict(list)` append: `abbrev_to_entities[k].append(v)`. -/
def appendAt : List (String × List String) → String → String → List (String × List String)
  | [], k, v => [(k, [v])]
  | (k0, l) :: rest, k, v =>
    if k0 = k then (k0, l ++ [v]) :: rest else (k0, l) :: appendAt rest k v

/-- The entity loop of `_build_abbreviations_for_level`: for each entity,
normalize it and append the normalized form under each generated key. -/
def buildAbbrevEntries (normalizeF : String → String) (entities : List String) :
    List (String × List String) :=
  entities.foldl
    (fun m e => (generateInitials (normalizeF e)).foldl
      (fun m k => appendAt m k (normalizeF e)) m)
    []

/-- The partition loop: singleton lists go to `abbreviations` (the single
entity), longer lists go to `ambiguous` (the full list). -/
def splitAbbrevMaps (atoe : List (String × List String)) :
    List (String × String) × List (String × List String) :=
  (atoe.filterMap (fun kl => if kl.2.length = 1 then some (kl.1, kl.2.headD "") else none),
   atoe.filterMap (fun kl => if kl.2.length = 1 then none else some kl))

/-- The abbreviation dictionary of one level: `(abbreviations, ambiguous)`. -/
def buildAbbrevMaps (normalizeF : String → String) (entities : List String) :
    List (String × String) × List (String × List String) :=
  splitAbbrevMaps (buildAbbrevEntries normalizeF entities)

/-- A key `k` "points back" to a normalized name `v`: either the unambiguous
map sends `k` to `v`, or the ambiguous map's candidate list for `k`
contains `v`. -/
def pointsBack (maps : List (String × String) × List (String × List String))
    (k v : String) : Prop :=
  maps.1.lookup k = some v ∨ ∃ l, maps.2.lookup k = some l ∧ v ∈ l

/-! ### Lemmas about the abbreviation maps (claim C9) -/

/-- `appendAt` at the written key: the binding becomes the old list (empty if
absent) with `v` appended. -/
theorem appendAt_lookup_same (m : List (String × List String)) (k v : String) :
    (appendAt m k v).lookup k = some (((m.lookup k).getD []) ++ [v]) := by
  induction m with
  | nil => simp [appendAt, List.lookup]
  | cons hd rest ih =>
    obtain ⟨k0, l⟩ := hd
    by_cases h : k0 = k
    · subst h
      simp [appendAt, List.lookup]
    · have hk : (k == k0) = false := beq_eq_false_iff_ne.mpr (fun hc => h hc.symm)
      simp [appendAt, h, List.lookup, hk, ih]

/-- `appendAt` leaves other keys untouched. -/
theorem appendAt_lookup_other (m : List (String × List String)) (k v k' : String)
    (h : k' ≠ k) : (appendAt m k v).lookup k' = m.lookup k' := by
  induction m with
  | nil =>
    have hk : (k' == k) = false := beq_eq_false_iff_ne.mpr h
    simp [appendAt, List.lookup, hk]
  | cons hd rest ih =>
    obtain ⟨k0, l⟩ := hd
    by_cases h0 : k0 = k
    · subst h0
      have hk : (k' == k0) = false := beq_eq_false_iff_ne.mpr h
      simp [appendAt, List.lookup, hk]
    · by_cases h1 : k' = k0
      · subst h1
        simp [appendAt, h0, List.lookup]
      · have hk : (k' == k0) = false := beq_eq_false_iff_ne.mpr h1
        simp [appendAt, h0, List.lookup, hk, ih]

/-- Membership in a key's candidate list survives any further append. -/
theorem mem_appendAt (m : List (String × List String)) (k v k' v' : String)
    (h : v ∈ (m.lookup k).getD []) : v ∈ ((appendAt m k' v').lookup k).getD [] := by
  by_cases hk : k = k'
  · subst hk
    rw [appendAt_lookup_same]
    simpa using Or.inl h
  · rw [appendAt_lookup_other m k' v' k hk]
    exact h

/-- Membership survives a whole fold of appends (one entity's key loop). -/
theorem mem_foldAppend (keys : List String) (w : String) :
    ∀ (m : List (String × List String)) (k v : String),
      v ∈ (m.lookup k).getD [] →
      v ∈ ((keys.foldl (fun m k => appendAt m k w) m).lookup k).getD [] := by
  induction keys with
  | nil => intro m k v h; exact h
  | cons k0 rest ih =>
    intro m k v h
    exact ih _ k v (mem_appendAt m k v k0 w h)

/-- After one entity's key loop, the entity is present under each of its keys. -/
theorem mem_foldAppend_self (keys : List String) (w : String) :
    ∀ (m : List (String × List String)) (k : String), k ∈ keys →
      w ∈ ((keys.foldl (fun m k => appendAt m k w) m).lookup k).getD [] := by
  induction keys with
  | nil => intro m k h; cases h
  | cons k0 rest ih =>
    intro m k hk
    rcases List.mem_cons.mp hk with rfl | hk
    · apply mem_foldAppend rest w
      rw [appendAt_lookup_same]
      simp
    · exact ih _ k hk

/-- Membership survives the outer entity loop. -/
theorem mem_foldEntities (f : String → String) (entities : List String) :
    ∀ (m : List (String × List String)) (k v : String),
      v ∈ (m.lookup k).getD [] →
      v ∈ ((entities.foldl
        (fun m e => (generateInitials (f e)).foldl (fun m k => appendAt m k (f e)) m)
        m).lookup k).getD [] := by
  induction entities with
  | nil => intro m k v h; exact h
  | cons e0 rest ih =>
    intro m k v h
    exact ih _ k v (mem_foldAppend _ _ _ k v h)

/-- The entity loop, from any accumulator, records each processed entity
under each of its generated keys. -/
theorem mem_foldEntities_self (f : String → String) (entities : List String) :
    ∀ (m : List (String × List String)) (e : String), e ∈ entities →
      ∀ k ∈ generateInitials (f e),
      f e ∈ ((entities.foldl
        (fun m e => (generateInitials (f e)).foldl (fun m k => appendAt m k (f e)) m)
        m).lookup k).getD [] := by
  induction entities with
  | nil => intro m e he; cases he
  | cons e0 rest ih =>
    intro m e he k hk
    rcases List.mem_cons.mp he with rfl | he
    · simp only [List.foldl_cons]
      exact mem_foldEntities f rest _ k (f e) (mem_foldAppend_self _ _ _ k hk)
    · simp only [List.foldl_cons]
      exact ih _ e he k hk

/-- Every entity of the input list ends up, under each of its generated keys,
in the key's candidate list of `buildAbbrevEntries`. -/
theorem mem_buildAbbrevEntries (f : String → String) (entities : List String)
    (e : String) (he : e ∈ entities) (k : String) (hk : k ∈ generateInitials (f e)) :
    f e ∈ ((buildAbbrevEntries f entities).lookup k).getD [] :=
  mem_foldEntities_self f entities [] e he k hk

/-- The partition step: the first binding of a key in `abbrev_to_entities`
lands in `abbreviations` when its list is a singleton and in `ambiguous`
otherwise. -/
theorem splitAbbrevMaps_lookup (atoe : List (String × List String)) (k : String)
    (l : List String) (h : atoe.lookup k = some l) :
    (l.length = 1 → (splitAbbrevMaps atoe).1.lookup k = some (l.headD "")) ∧
    (l.length ≠ 1 → (splitAbbrevMaps atoe).2.lookup k = some l) := by
  induction atoe with
  | nil => simp [List.lookup] at h
  | cons hd rest ih =>
    obtain ⟨k0, l0⟩ := hd
    by_cases hk : k = k0
    · subst hk
      have hl : l0 = l := by simpa [List.lookup] using h
      subst hl
      constructor
      · intro h1
        simp [splitAbbrevMaps, h1, List.lookup]
      · intro h1
        simp [splitAbbrevMaps, h1, List.lookup]
    · have hbk : (k == k0) = false := beq_eq_false_iff_ne.mpr hk
      have h2 : rest.lookup k = some l := by simpa [List.lookup, hbk] using h
      have := ih h2
      constructor
      · intro h1
        have hr := this.1 h1
        by_cases hc : l0.length = 1
        · simpa [splitAbbrevMaps, hc, List.lookup, hbk] using hr
        · simpa [splitAbbrevMaps, hc, List.lookup, hbk] using hr
      · intro h1
        have hr := this.2 h1
        by_cases hc : l0.length = 1
        · simpa [splitAbbrevMaps, hc, List.lookup, hbk] using hr
        · simpa [splitAbbrevMaps, hc, List.lookup, hbk] using hr

/-- C9 (amended): for every entity whose normalized form has at least two
tokens, the dynamic abbreviation dictionary contains exactly THREE key-types
for it — bare initials, dotted initials, and no-space compaction — each
pointing back (through the unambiguous or the ambiguous map) to the
normalized name.  The first-plus-last key-type of the claim is NOT generated
by `AbbreviationBuilder._generate_initials` (it exists only in
`alias_generator.py`). -/
theorem c9_abbrev_three_key_types (f : String → String) (entities : List String)
    (e : String) (he : e ∈ entities) (hn : 2 ≤ (pySplit (f e)).length) :
    generateInitials (f e) =
      [String.join ((pySplit (f e)).map firstCharStr),
       String.intercalate "." ((pySplit (f e)).map firstCharStr),
       String.join (pySplit (f e))] ∧
    ∀ k ∈ generateInitials (f e), pointsBack (buildAbbrevMaps f entities) k (f e) := by
  constructor
  · unfold generateInitials
    rw [if_neg (by omega), if_neg (by omega)]
  · intro k hk
    have hv := mem_buildAbbrevEntries f entities e he k hk
    cases hl : (buildAbbrevEntries f entities).lookup k with
    | none => rw [hl] at hv; simp at hv
    | some l =>
      rw [hl] at hv
      simp only [Option.getD_some] at hv
      have hsplit := splitAbbrevMaps_lookup _ k l hl
      by_cases h1 : l.length = 1
      · left
        have hu := hsplit.1 h1
        have hl1 : l = [f e] := by
          cases l with
          | nil => simp at h1
          | cons a t =>
            have ht : t = [] := by
              have : t.length = 0 := by simpa using h1
              exact List.length_eq_zero.mp this
            subst ht
            have ha : f e = a := by simpa using hv
            rw [ha]
        rw [hl1] at hu
        simpa [buildAbbrevMaps] using hu
      · exact Or.inr ⟨l, by simpa [buildAbbrevMaps] using hsplit.2 h1, hv⟩

/-- C9 counterexample: building the dictionary from the single line
`"ho chi minh"` (already normalized; 3 tokens) yields the three key-types
but NOT the first-plus-last key `"ho minh"` demanded by the claim: neither
map contains it. -/
theorem c9_counterexample :
    (pySplit "ho chi minh").length = 3 ∧
    (buildAbbrevMaps id ["ho chi minh"]).1.lookup "hcm" = some "ho chi minh" ∧
    (buildAbbrevMaps id ["ho chi minh"]).1.lookup "h.c.m" = some "ho chi minh" ∧
    (buildAbbrevMaps id ["ho chi minh"]).1.lookup "hochiminh" = some "ho chi minh" ∧
    (buildAbbrevMaps id ["ho chi minh"]).1.lookup "ho minh" = none ∧
    (buildAbbrevMaps id ["ho chi minh"]).2.lookup "ho minh" = none := by
  decide

/-- Witness for `c9_abbrev_three_key_types` at a concrete instance. -/
theorem c9_amended_witness :
    pointsBack (buildAbbrevMaps id ["ho chi minh"]) "hcm" "ho chi minh" := by
  apply (c9_abbrev_three_key_types id ["ho chi minh"] "ho chi minh"
    (by simp) (by decide)).2
  decide

/-! ## `admin_prefix_handler.py` — prefix removal

`AdminPrefixHandler._remove_prefix(text, level)` tries, in list order, the
regex `'^' + pattern + r'[\s\.]?'` with `re.IGNORECASE`.  Every pattern in
`ADMIN_PREFIXES` is a literal string (all dots are escaped), so the regex
match is: the text starts with the pattern (case-insensitively), and the
OPTIONAL trailing class `[\s\.]?` consumes one following whitespace or dot if
present — it imposes NO boundary requirement.  On a match the remainder is
`.strip()`ped and then `.lstrip('. ')`ped. -/

/-- `ADMIN_PREFIXES['province']['patterns']` (source order). -/
def provincePatterns : List String :=
  ["thanh pho truc thuoc trung uong", "thanh pho", "tinh", "tp.", "t.", "tp", "t"]

/-- `ADMIN_PREFIXES['district']['patterns']` (source order). -/
def districtPatterns : List String :=
  ["thanh pho", "thi xa", "quan", "huyen", "tp.", "tx.", "q.", "h.", "tp", "tx", "q", "h"]

/-- `ADMIN_PREFIXES['ward']['patterns']` (source order). -/
def wardPatterns : List String :=
  ["thi tran", "phuong", "xa", "tt.", "p.", "x.", "tt", "p", "x"]

/-- `get_all_patterns_ordered()`: all levels by priority 1, 2, 3. -/
def allLevelPatterns : List String := provincePatterns ++ districtPatterns ++ wardPatterns

/-- Case-insensitive literal match of a (lowercase) pattern at the start of
the text; returns the remainder on success. -/
def ciMatch : List Char → List Char → Option (List Char)
  | [], rest => some rest
  | _ :: _, [] => none
  | p :: ps, c :: cs => if pyLower c = p then ciMatch ps cs else none

/-- The optional separator class `[\s\.]?`: consume one whitespace or dot if
present. -/
def sepOpt : List Char → List Char
  | [] => []
  | c :: cs => if isPySpace c || c = '.' then cs else c :: cs

/-- `result.lstrip('. ')`. -/
def stripDotSpace (s : List Char) : List Char := s.dropWhile (fun c => c = '.' || c = ' ')

/-- The pattern loop of `_remove_prefix`: first matching pattern wins. -/
def removeAdminGo : List String → List Char → String
  | [], t => String.mk t
  | p :: ps, t =>
    match ciMatch p.toList t with
    | some rest => String.mk (stripDotSpace (pyStrip (sepOpt rest)))
    | none => removeAdminGo ps t

/-- `AdminPrefixHandler._remove_prefix(text, level)`. -/
def removeAdminPre (text : String) (level : String) : String :=
  let t := pyStrip text.toList
  if level = "province" then removeAdminGo provincePatterns t
  else if level = "district" then removeAdminGo districtPatterns t
  else if level = "ward" then removeAdminGo wardPatterns t
  else if level = "auto" then removeAdminGo allLevelPatterns t
  else String.mk t

/-- C7 (code bug): because the separator class `[\s\.]?` is OPTIONAL, the
single-letter province pattern `t` matches the start of `"tan binh"` even
though it is followed by the letter `a`, and `_remove_prefix` returns
`"an binh"` — the claim (and the source's own comment "pattern at start,
followed by space or end") requires the text to be returned unchanged.
The two sanity conjuncts show prefix removal behaving as documented when a
real separator is present. -/
theorem c7_remove_admin_boundary_bug :
    removeAdminPre "tan binh" "province" = "an binh" ∧
    removeAdminPre "thanh pho ho chi minh" "province" = "ho chi minh" ∧
    removeAdminPre "tp.hcm" "province" = "hcm" := by
  decide

/-! ## `text_normalizer.py` — the two-mode normalizer

`TextNormalizer.normalize` is the pipeline: remove special symbols (Unicode
category filter) → lowercase → character map (skipped when the map is empty,
`if self.char_map:`) → whitespace cleanup → punctuation handling → whitespace
cleanup → strip.  `_clean_whitespace` collapses whitespace runs
(`re.sub(r'\s+', ' ')`), strips, and, when `','` is meaningful, inserts a
space after every comma followed by a non-space (`re.sub(r',(?=\S)', ', ')`);
the `'/'` branch of the source is `pass`.  In aggressive mode the meaningful
punctuation (a Python set of distinct single characters, so the iteration
order of the sequential `str.replace` calls does not affect the result) is
replaced by spaces and all of `string.punctuation` is then deleted; in
structural mode hyphens become spaces and the noise punctuation
(`string.punctuation` minus the meaningful set, minus `'-'`) is deleted. -/

/-- The configuration of a `TextNormalizer` instance: its `char_map` (empty
list = Python `None`/`{}`) and its `meaningful_punct` set. -/
structure NormCfg where
  charMap : List (Char × Char)
  meaningful : List Char

/-- `MEANINGFUL_PUNCT = {'.', ',', '/'}`. -/
def defaultMeaningful : List Char := ['.', ',', '/']

/-- `TextNormalizer(VIETNAMESE_CHAR_MAP, {'.', ',', '/'})` — the module-level
`_default_vietnamese_normalizer`. -/
def vnNormalizer : NormCfg := ⟨vnCharMap, defaultMeaningful⟩

/-- `TextNormalizer()` as constructed by `AddressDatabase.__init__` (line 78):
`char_map` defaults to `None`, hence the empty map. -/
def dbNormalizer : NormCfg := ⟨[], defaultMeaningful⟩

/-- `_remove_special_symbols`: keep only categories L, N, Z, P. -/
def removeSpecialSymbols (s : List Char) : List Char := s.filter allowedCat

/-- `_apply_char_map`: per-character replacement, unknown characters pass. -/
def applyCharMap (m : List (Char × Char)) (s : List Char) : List Char :=
  s.map (fun c => (m.lookup c).getD c)

/-- `re.sub(r'\s+', ' ', text)`: each maximal whitespace run becomes one
space; the flag records whether we are inside a run. -/
def collapseAux : Bool → List Char → List Char
  | _, [] => []
  | inRun, c :: cs =>
    if isPySpace c then
      if inRun then collapseAux true cs else ' ' :: collapseAux true cs
    else c :: collapseAux false cs

/-- Whitespace-run collapsing. -/
def collapseWs (s : List Char) : List Char := collapseAux false s

/-- `re.sub(r',(?=\S)', ', ', text)`: insert a space after each comma
directly followed by a non-space. -/
def commaSpace : List Char → List Char
  | [] => []
  | c :: rest =>
    if c = ',' then
      match rest with
      | [] => [',']
      | d :: _ => if isPySpace d then ',' :: commaSpace rest else ',' :: ' ' :: commaSpace rest
    else c :: commaSpace rest

/-- `_clean_whitespace`. -/
def cleanWhitespace (cfg : NormCfg) (s : List Char) : List Char :=
  let s := pyStrip (collapseWs s)
  if cfg.meaningful.contains ',' then commaSpace s else s

/-- `_handle_punctuation`. -/
def handlePunct (cfg : NormCfg) (aggressive : Bool) (s : List Char) : List Char :=
  if aggressive then
    let s := cfg.meaningful.foldl (fun s p => s.map (fun c => if c = p then ' ' else c)) s
    s.filter (fun c => !(asciiPunctChars.contains c))
  else
    let s := s.map (fun c => if c = '-' then ' ' else c)
    s.filter (fun c => !(asciiPunctChars.contains c && !(cfg.meaningful.contains c) && !(c == '-')))

/-- `TextNormalizer.normalize(text, aggressive)`. -/
def normalize (cfg : NormCfg) (aggressive : Bool) (text : List Char) : List Char :=
  if text.isEmpty then []
  else
    let s := removeSpecialSymbols text
    let s := s.map pyLower
    let s := if cfg.charMap.isEmpty then s else applyCharMap cfg.charMap s
    let s := cleanWhitespace cfg s
    let s := handlePunct cfg aggressive s
    let s := cleanWhitespace cfg s
    pyStrip s

/-- `normalize` on Lean strings. -/
def normalizeStr (cfg : NormCfg) (aggressive : Bool) (text : String) : String :=
  String.mk (normalize cfg aggressive text.toList)

theorem normalize_testcases :
    normalizeStr vnNormalizer false "TP.HCM" = "tp.hcm" ∧
    normalizeStr vnNormalizer false "Quận 1" = "quan 1" ∧
    normalizeStr vnNormalizer true "tp.hcm" = "tp hcm" ∧
    normalizeStr vnNormalizer true "123/45" = "123 45" ∧
    normalizeStr vnNormalizer false "TP.HCM, Quận 1, P.Bến Nghé" = "tp.hcm, quan 1, p.ben nghe" ∧
    normalizeStr vnNormalizer false "Đường Nguyễn Huệ" = "duong nguyen hue" := by
  decide

/-! ## `alias_generator.py` -/

/-- `generate_aliases(original_name, normalizer)`: aggressive-normalize, then
emit the variants in generation order.  The source collects them in a Python
`set` (unspecified iteration order, duplicates removed); the list here keeps
generation order and possible duplicates — both are irrelevant to trie
content, since distinct aliases are distinct keys and re-inserting an equal
`(key, value)` pair is a proven no-op (`insertAux_insertAux_same`). -/
def generateAliases (cfg : NormCfg) (name : String) : List String :=
  let baseName := normalizeStr cfg true name
  let tokens := pySplit baseName
  if tokens.length = 0 then []
  else if tokens.length = 1 then [baseName, String.join tokens]
  else
    [baseName, String.join tokens,
     String.join (tokens.map firstCharStr),
     String.intercalate "." (tokens.map firstCharStr)] ++
    (if 3 ≤ tokens.length then [(tokens.headD "") ++ " " ++ (tokens.getLastD "")] else []) ++
    [firstCharStr (tokens.headD "") ++ ". " ++ joinSpace (tokens.drop 1),
     firstCharStr (tokens.headD "") ++ " " ++ joinSpace (tokens.drop 1)]

/-- C3 (code bug): the normalizer instance `AddressDatabase` actually uses is
`TextNormalizer()` — constructed WITHOUT a character map — so the alias/trie
keys and LCS candidate tokens it derives from `"Hà Nội"` are `"hà nội"` /
`["hà", "nội"]`, still carrying diacritics; with the Vietnamese map (what the
adjacent comment "uses Vietnamese defaults" and the class docstring
`search("ha noi") → "Hà Nội"` intend) the same name folds to `"ha noi"`. -/
theorem c3_database_normalizer_keeps_diacritics :
    normalizeStr dbNormalizer true "Hà Nội" = "hà nội" ∧
    "hà nội" ∈ generateAliases dbNormalizer "Hà Nội" ∧
    pySplit (normalizeStr dbNormalizer true "Hà Nội") = ["hà", "nội"] ∧
    normalizeStr vnNormalizer true "Hà Nội" = "ha noi" := by
  decide

/-- A character map under which normalization is visibly not idempotent. -/
def badMapCfg : NormCfg := ⟨[('a', 'b'), ('b', 'c')], defaultMeaningful⟩

/-- C10 counterexample: under the character map `{'a': 'b', 'b': 'c'}` (the
claim quantifies over "any character map"), `normalize("a") = "b"` but
`normalize(normalize("a")) = "c"` — idempotence fails. -/
theorem c10_counterexample :
    normalizeStr badMapCfg false "a" = "b" ∧
    normalizeStr badMapCfg false (normalizeStr badMapCfg false "a") = "c" ∧
    normalizeStr badMapCfg false (normalizeStr badMapCfg false "a") ≠
      normalizeStr badMapCfg false "a" := by
  decide

/-! ### Idempotence of `normalize` for stable character maps (claim C10)

Strategy: characterize the normal form — every character of the output is
fixed by the symbol filter, lowercasing, the character map and the
punctuation stage; whitespace is single internal spaces; every comma is
followed by whitespace — and show (1) `normalize` always produces a normal
form, (2) every pipeline stage is the identity on normal forms. -/

/-- `postMap m c`: the character-map stage on one character, including the
`if self.char_map:` skip for the empty map. -/
def postMap (m : List (Char × Char)) (c : Char) : Char :=
  if m.isEmpty then c else (m.lookup c).getD c

/-- A character fixed by the second pass's character stages: allowed
category, lowercase-fixed, map-fixed. -/
def stableBase (m : List (Char × Char)) (c : Char) : Bool :=
  allowedCat c && (pyLower c == c) && (m.isEmpty || ((m.lookup c).getD c == c))

/-- A character of a normal form: stable, plus the mode's punctuation
condition (aggressive: no punctuation at all; structural: no hyphen and no
noise punctuation). -/
def charOk (m : List (Char × Char)) (agg : Bool) (c : Char) : Bool :=
  stableBase m c &&
  (if agg then !(asciiPunctChars.contains c)
   else !(c == '-') && !(asciiPunctChars.contains c && !(defaultMeaningful.contains c)))

/-- A character map is "good" when the image of every allowed character under
lowercase-then-map is stable, and the space character is stable.  The
Vietnamese map and the empty map are good; `badMapCfg`'s map is not. -/
def GoodMap (m : List (Char × Char)) : Prop :=
  (∀ c, allowedCat c = true → stableBase m (postMap m (pyLower c)) = true) ∧
  stableBase m ' ' = true

/-- No two adjacent whitespace characters. -/
def noTwoSpace (a b : Char) : Prop := ¬(isPySpace a = true ∧ isPySpace b = true)

/-- Every comma is directly followed by whitespace. -/
def commaRel (a b : Char) : Prop := a = ',' → isPySpace b = true

/-- The normal-form invariant. -/
structure NormalForm (m : List (Char × Char)) (agg : Bool) (s : List Char) : Prop where
  chars : ∀ c ∈ s, charOk m agg c = true
  nodbl : List.Chain' noTwoSpace s
  headOk : ∀ c ∈ s.head?, isPySpace c = false
  lastOk : ∀ c ∈ s.getLast?, isPySpace c = false
  comma : List.Chain' commaRel s

/-- An element of a Boolean-`all` list satisfies the predicate. -/
theorem all_of_mem {p : Char → Bool} {l : List Char} (hall : l.all p = true)
    {c : Char} (hc : c ∈ l) : p c = true :=
  List.all_eq_true.mp hall c hc

/-- Case split delivered by `allowedCat`. -/
theorem allowedCat_cases {c : Char} (h : allowedCat c = true) :
    c = ' ' ∨ c ∈ asciiLowerChars ∨ c ∈ asciiUpperChars ∨ c ∈ digitChars ∨
    c ∈ asciiPunctP ∨ c ∈ vietLowerChars ∨ c ∈ vietUpperChars := by
  unfold allowedCat pyCategory at h
  split_ifs at h with h1 h2 h3 h4 h5 h6
  · exact Or.inl h1
  · rcases (by simpa using h2 : c ∈ asciiLowerChars ∨ c ∈ asciiUpperChars) with h2 | h2
    · exact Or.inr (Or.inl h2)
    · exact Or.inr (Or.inr (Or.inl h2))
  · exact Or.inr (Or.inr (Or.inr (Or.inl (by simpa using h3))))
  · exact Or.inr (Or.inr (Or.inr (Or.inr (Or.inl (by simpa using h4)))))
  · simp at h
  · rcases (by simpa using h6 : c ∈ vietLowerChars ∨ c ∈ vietUpperChars) with h6 | h6
    · exact Or.inr (Or.inr (Or.inr (Or.inr (Or.inr (Or.inl h6)))))
    · exact Or.inr (Or.inr (Or.inr (Or.inr (Or.inr (Or.inr h6)))))
  · simp at h

set_option maxHeartbeats 2000000 in
/-- The Vietnamese character map is good. -/
theorem vnCharMap_good : GoodMap vnCharMap := by
  constructor
  · intro c hc
    rcases allowedCat_cases hc with rfl | h | h | h | h | h | h
    · decide
    · exact all_of_mem (by decide :
        asciiLowerChars.all (fun c => stableBase vnCharMap (postMap vnCharMap (pyLower c))) = true) h
    · exact all_of_mem (by decide :
        asciiUpperChars.all (fun c => stableBase vnCharMap (postMap vnCharMap (pyLower c))) = true) h
    · exact all_of_mem (by decide :
        digitChars.all (fun c => stableBase vnCharMap (postMap vnCharMap (pyLower c))) = true) h
    · exact all_of_mem (by decide :
        asciiPunctP.all (fun c => stableBase vnCharMap (postMap vnCharMap (pyLower c))) = true) h
    · exact all_of_mem (by decide :
        vietLowerChars.all (fun c => stableBase vnCharMap (postMap vnCharMap (pyLower c))) = true) h
    · exact all_of_mem (by decide :
        vietUpperChars.all (fun c => stableBase vnCharMap (postMap vnCharMap (pyLower c))) = true) h
  · decide

/-- An allowed whitespace character is the space. -/
theorem allowed_space_eq {c : Char} (ha : allowedCat c = true) (hs : isPySpace c = true) :
    c = ' ' := by
  have h6 : c = ' ' ∨ c = '\t' ∨ c = '\n' ∨ c = '\r' ∨
      c = Char.ofNat 11 ∨ c = Char.ofNat 12 := by
    simp [isPySpace] at hs
    tauto
  rcases h6 with rfl | rfl | rfl | rfl | rfl | rfl
  · rfl
  · exact absurd ha (by decide)
  · exact absurd ha (by decide)
  · exact absurd ha (by decide)
  · exact absurd ha (by decide)
  · exact absurd ha (by decide)

/-! #### Generic list-stage lemmas -/

/-- A map whose function fixes every element is the identity. -/
theorem map_id_of {f : Char → Char} : ∀ {s : List Char}, (∀ c ∈ s, f c = c) → s.map f = s := by
  intro s
  induction s with
  | nil => intro _; rfl
  | cons a t ih =>
    intro h
    simp only [List.map_cons]
    rw [h a (List.mem_cons_self a t), ih (fun c hc => h c (List.mem_cons_of_mem a hc))]

/-- Membership after `dropWhile`. -/
theorem mem_of_mem_dropWhile {p : Char → Bool} :
    ∀ {s : List Char} {c : Char}, c ∈ s.dropWhile p → c ∈ s := by
  intro s
  induction s with
  | nil => intro c h; simpa using h
  | cons a t ih =>
    intro c h
    by_cases hp : p a
    · rw [List.dropWhile_cons_of_pos hp] at h
      exact List.mem_cons_of_mem a (ih h)
    · rwa [List.dropWhile_cons_of_neg hp] at h

/-- `Chain'` survives `dropWhile`. -/
theorem chain'_dropWhile {R : Char → Char → Prop} {p : Char → Bool} :
    ∀ {s : List Char}, List.Chain' R s → List.Chain' R (s.dropWhile p) := by
  intro s
  induction s with
  | nil => intro h; simpa using h
  | cons a t ih =>
    intro h
    by_cases hp : p a
    · rw [List.dropWhile_cons_of_pos hp]
      exact ih h.tail
    · rwa [List.dropWhile_cons_of_neg hp]

/-- The head of a `dropWhile` result fails the predicate. -/
theorem head_dropWhile_false {p : Char → Bool} :
    ∀ {s : List Char}, ∀ c ∈ (s.dropWhile p).head?, p c = false := by
  intro s
  induction s with
  | nil => intro c h; simp at h
  | cons a t ih =>
    intro c h
    by_cases hp : p a
    · rw [List.dropWhile_cons_of_pos hp] at h
      exact ih c h
    · rw [List.dropWhile_cons_of_neg hp] at h
      simp only [List.head?_cons, Option.mem_def, Option.some.injEq] at h
      subst h
      exact Bool.eq_false_iff.mpr hp

/-- `dropWhile` is the identity when the head fails the predicate. -/
theorem dropWhile_eq_self_of_head {p : Char → Bool} {s : List Char}
    (h : ∀ c ∈ s.head?, p c = false) : s.dropWhile p = s := by
  cases s with
  | nil => rfl
  | cons a t =>
    have ha : p a = false := h a (by simp)
    exact List.dropWhile_cons_of_neg (by simp [ha])

/-- A nonempty `dropWhile` result keeps the original last element. -/
theorem getLast?_dropWhile {p : Char → Bool} :
    ∀ {s : List Char}, s.dropWhile p ≠ [] → (s.dropWhile p).getLast? = s.getLast? := by
  intro s
  induction s with
  | nil => intro h; simp at h
  | cons a t ih =>
    intro h
    by_cases hp : p a
    · rw [List.dropWhile_cons_of_pos hp] at h ⊢
      rw [ih h]
      have ht : t ≠ [] := by
        intro he
        subst he
        simp at h
      rcases t with _ | ⟨b, u⟩
      · exact absurd rfl ht
      · exact (List.getLast?_cons_cons (l := u)).symm
    · rw [List.dropWhile_cons_of_neg hp]

/-- Membership after `pyStrip`. -/
theorem mem_of_mem_pyStrip {s : List Char} {c : Char} (h : c ∈ pyStrip s) : c ∈ s := by
  unfold pyStrip at h
  have h1 := mem_of_mem_dropWhile h
  rw [List.mem_reverse] at h1
  have h2 := mem_of_mem_dropWhile h1
  rwa [List.mem_reverse] at h2

/-- The result of `pyStrip` has no leading and no trailing whitespace. -/
theorem pyStrip_noEdge (s : List Char) :
    (∀ c ∈ (pyStrip s).head?, isPySpace c = false) ∧
    (∀ c ∈ (pyStrip s).getLast?, isPySpace c = false) := by
  constructor
  · intro c h
    exact head_dropWhile_false c h
  · intro c h
    by_cases hne : pyStrip s = []
    · rw [hne] at h; simp at h
    · unfold pyStrip at h hne
      rw [getLast?_dropWhile hne] at h
      rw [List.getLast?_reverse] at h
      exact head_dropWhile_false c h

/-- A symmetric `Chain'` relation survives `pyStrip`. -/
theorem chain'_pyStrip {R : Char → Char → Prop} (hsym : ∀ a b, R a b → R b a)
    {s : List Char} (h : List.Chain' R s) : List.Chain' R (pyStrip s) := by
  unfold pyStrip
  apply chain'_dropWhile
  rw [List.chain'_reverse]
  apply List.Chain'.imp (fun a b hab => hsym a b hab)
  apply chain'_dropWhile
  rw [List.chain'_reverse]
  exact List.Chain'.imp (fun a b hab => hsym a b hab) h

/-- `pyStrip` is the identity on edge-clean strings. -/
theorem pyStrip_eq_self {s : List Char}
    (hh : ∀ c ∈ s.head?, isPySpace c = false)
    (hl : ∀ c ∈ s.getLast?, isPySpace c = false) : pyStrip s = s := by
  unfold pyStrip
  have h1 : s.reverse.dropWhile isPySpace = s.reverse :=
    dropWhile_eq_self_of_head (by simpa only [List.head?_reverse] using hl)
  rw [h1, List.reverse_reverse]
  exact dropWhile_eq_self_of_head hh

/-! #### Whitespace collapsing -/

/-- A collapse result consists of inserted spaces and original characters. -/
theorem mem_collapseAux : ∀ {b : Bool} {s : List Char} {c : Char},
    c ∈ collapseAux b s → c = ' ' ∨ c ∈ s := by
  intro b s
  induction s generalizing b with
  | nil => intro c h; simp [collapseAux] at h
  | cons a t ih =>
    intro c h
    by_cases hs : isPySpace a = true
    · simp only [collapseAux, hs, if_true] at h
      by_cases hb : b
      · subst hb
        simp only [if_true] at h
        rcases ih h with h | h
        · exact Or.inl h
        · exact Or.inr (List.mem_cons_of_mem a h)
      · simp only [hb, if_false] at h
        rcases List.mem_cons.mp h with rfl | h
        · exact Or.inl rfl
        · rcases ih h with h | h
          · exact Or.inl h
          · exact Or.inr (List.mem_cons_of_mem a h)
    · simp only [collapseAux, hs, if_false] at h
      rcases List.mem_cons.mp h with rfl | h
      · exact Or.inr (List.mem_cons_self _ _)
      · rcases ih h with h | h
        · exact Or.inl h
        · exact Or.inr (List.mem_cons_of_mem a h)

/-- Collapse results have no adjacent whitespace; in run-mode the head is not
whitespace. -/
theorem collapseAux_chain : ∀ (s : List Char),
    List.Chain' noTwoSpace (collapseAux false s) ∧
    List.Chain' noTwoSpace (collapseAux true s) ∧
    (∀ c ∈ (collapseAux true s).head?, isPySpace c = false) := by
  intro s
  induction s with
  | nil => refine ⟨by simp [collapseAux], by simp [collapseAux], ?_⟩; intro c h; simp [collapseAux] at h
  | cons a t ih =>
    obtain ⟨hf, htc, hth⟩ := ih
    by_cases hs : isPySpace a = true
    · refine ⟨?_, ?_, ?_⟩
      · simp only [collapseAux, hs, if_true, if_false, Bool.false_eq_true]
        exact List.chain'_cons'.mpr ⟨fun y hy => fun hc => by
          rw [hth y hy] at hc; exact absurd hc.2 (by simp), htc⟩
      · simpa only [collapseAux, hs, if_true] using htc
      · intro c h
        simp only [collapseAux, hs, if_true] at h
        exact hth c h
    · have hs0 : isPySpace a = false := Bool.eq_false_iff.mpr hs
      refine ⟨?_, ?_, ?_⟩
      · simp only [collapseAux, hs0, Bool.false_eq_true, if_false]
        exact List.chain'_cons'.mpr ⟨fun y _ => fun hc => by rw [hs0] at hc; exact absurd hc.1 (by simp), hf⟩
      · simp only [collapseAux, hs0, Bool.false_eq_true, if_false]
        exact List.chain'_cons'.mpr ⟨fun y _ => fun hc => by rw [hs0] at hc; exact absurd hc.1 (by simp), hf⟩
      · intro c h
        simp only [collapseAux, hs0, Bool.false_eq_true, if_false, List.head?_cons,
          Option.mem_def, Option.some.injEq] at h
        subst h
        exact hs0

/-- Collapse is the identity on strings whose whitespace is single internal
spaces. -/
theorem collapseAux_eq_self : ∀ (s : List Char),
    (∀ c ∈ s, isPySpace c = true → c = ' ') →
    List.Chain' noTwoSpace s →
    (collapseAux false s = s ∧
      ((∀ c ∈ s.head?, isPySpace c = false) → collapseAux true s = s)) := by
  intro s
  induction s with
  | nil => intro _ _; exact ⟨rfl, fun _ => rfl⟩
  | cons a t ih =>
    intro hws hch
    have hwt : ∀ c ∈ t, isPySpace c = true → c = ' ' :=
      fun c hc => hws c (List.mem_cons_of_mem a hc)
    obtain ⟨ihf, iht⟩ := ih hwt hch.tail
    by_cases hs : isPySpace a = true
    · have ha : a = ' ' := hws a (List.mem_cons_self a t) hs
      subst ha
      constructor
      · simp only [collapseAux, hs, if_true, Bool.false_eq_true, if_false]
        congr 1
        cases t with
        | nil => rfl
        | cons d ds =>
          have hd : isPySpace d = false := by
            have := (List.chain'_cons'.mp hch).1 d (by simp)
            by_contra hdd
            exact this ⟨hs, Bool.not_eq_false _ |>.mp hdd⟩
          exact iht (fun c hc => by
            simp only [List.head?_cons, Option.mem_def, Option.some.injEq] at hc
            subst hc; exact hd)
      · intro hhead
        exact absurd (hhead ' ' (by simp)) (by simp [hs])
    · have hs0 : isPySpace a = false := Bool.eq_false_iff.mpr hs
      constructor
      · simp only [collapseAux, hs0, Bool.false_eq_true, if_false]
        rw [ihf]
      · intro _
        simp only [collapseAux, hs0, Bool.false_eq_true, if_false]
        rw [ihf]

/-! #### Comma spacing -/

/-- Unfolding equation: a comma before a further character. -/
theorem commaSpace_comma_cons (d : Char) (ds : List Char) :
    commaSpace (',' :: d :: ds) =
      if isPySpace d = true then ',' :: commaSpace (d :: ds)
      else ',' :: ' ' :: commaSpace (d :: ds) := by
  by_cases hd : isPySpace d = true <;> simp [commaSpace, hd]

/-- Unfolding equation: a non-comma head. -/
theorem commaSpace_cons_ne {a : Char} (t : List Char) (ha : a = ',' → False) :
    commaSpace (a :: t) = a :: commaSpace t := by
  simp only [commaSpace]
  rw [if_neg ha]

/-- Characters of a `commaSpace` result. -/
theorem mem_commaSpace : ∀ {s : List Char} {c : Char},
    c ∈ commaSpace s → c = ' ' ∨ c ∈ s := by
  intro s
  induction s with
  | nil => intro c h; simp [commaSpace] at h
  | cons a t ih =>
    intro c h
    by_cases ha : a = ','
    · subst ha
      cases t with
      | nil =>
        exact Or.inr (by simpa [commaSpace] using h)
      | cons d ds =>
        rw [commaSpace_comma_cons] at h
        by_cases hd : isPySpace d = true
        · rw [if_pos hd] at h
          rcases List.mem_cons.mp h with rfl | h
          · exact Or.inr (List.mem_cons_self _ _)
          · rcases ih h with h | h
            · exact Or.inl h
            · exact Or.inr (List.mem_cons_of_mem _ h)
        · rw [if_neg hd] at h
          rcases List.mem_cons.mp h with rfl | h
          · exact Or.inr (List.mem_cons_self _ _)
          · rcases List.mem_cons.mp h with rfl | h
            · exact Or.inl rfl
            · rcases ih h with h | h
              · exact Or.inl h
              · exact Or.inr (List.mem_cons_of_mem _ h)
    · rw [commaSpace_cons_ne t ha] at h
      rcases List.mem_cons.mp h with rfl | h
      · exact Or.inr (List.mem_cons_self _ _)
      · rcases ih h with h | h
        · exact Or.inl h
        · exact Or.inr (List.mem_cons_of_mem _ h)

/-- `commaSpace` keeps the first character. -/
theorem head?_commaSpace : ∀ (s : List Char), (commaSpace s).head? = s.head? := by
  intro s
  cases s with
  | nil => rfl
  | cons a t =>
    by_cases ha : a = ','
    · subst ha
      cases t with
      | nil => rfl
      | cons d ds =>
        rw [commaSpace_comma_cons]
        by_cases hd : isPySpace d = true
        · rw [if_pos hd]; rfl
        · rw [if_neg hd]; rfl
    · rw [commaSpace_cons_ne t ha]; rfl

/-- `commaSpace` of a nonempty list is nonempty. -/
theorem commaSpace_ne_nil {a : Char} {t : List Char} : commaSpace (a :: t) ≠ [] := by
  intro h
  have h2 := head?_commaSpace (a :: t)
  rw [h] at h2
  simp at h2

/-- `commaSpace` keeps the last character. -/
theorem getLast?_commaSpace : ∀ (s : List Char), (commaSpace s).getLast? = s.getLast? := by
  intro s
  induction s with
  | nil => rfl
  | cons a t ih =>
    by_cases ha : a = ','
    · subst ha
      cases t with
      | nil => rfl
      | cons d ds =>
        obtain ⟨e, es, he⟩ := List.exists_cons_of_ne_nil (commaSpace_ne_nil (a := d) (t := ds))
        rw [commaSpace_comma_cons]
        by_cases hd : isPySpace d = true
        · rw [if_pos hd, he, List.getLast?_cons_cons, ← he, ih, List.getLast?_cons_cons]
        · rw [if_neg hd, he, List.getLast?_cons_cons, List.getLast?_cons_cons, ← he, ih,
            List.getLast?_cons_cons]
    · cases t with
      | nil => rw [commaSpace_cons_ne [] ha]; rfl
      | cons d ds =>
        obtain ⟨e, es, he⟩ := List.exists_cons_of_ne_nil (commaSpace_ne_nil (a := d) (t := ds))
        rw [commaSpace_cons_ne (d :: ds) ha, he, List.getLast?_cons_cons, ← he, ih,
          List.getLast?_cons_cons]

/-- `commaSpace` preserves the no-adjacent-whitespace property. -/
theorem chain'_commaSpace : ∀ {s : List Char},
    List.Chain' noTwoSpace s → List.Chain' noTwoSpace (commaSpace s) := by
  intro s
  induction s with
  | nil => intro _; simp [commaSpace]
  | cons a t ih =>
    intro h
    by_cases ha : a = ','
    · subst ha
      cases t with
      | nil => simp [commaSpace]
      | cons d ds =>
        rw [commaSpace_comma_cons]
        by_cases hd : isPySpace d = true
        · rw [if_pos hd]
          refine List.chain'_cons'.mpr ⟨fun y _ hc => absurd hc.1 (by decide), ih h.tail⟩
        · rw [if_neg hd]
          refine List.chain'_cons'.mpr ⟨fun y _ hc => absurd hc.1 (by decide), ?_⟩
          refine List.chain'_cons'.mpr ⟨?_, ih h.tail⟩
          intro y hy hc
          rw [head?_commaSpace (d :: ds)] at hy
          simp only [List.head?_cons, Option.mem_def, Option.some.injEq] at hy
          subst hy
          exact hd hc.2
    · rw [commaSpace_cons_ne t ha]
      refine List.chain'_cons'.mpr ⟨?_, ih h.tail⟩
      intro y hy
      rw [head?_commaSpace t] at hy
      exact (List.chain'_cons'.mp h).1 y hy

/-- `commaSpace` establishes the comma-followed-by-space property. -/
theorem commaOk_commaSpace : ∀ (s : List Char), List.Chain' commaRel (commaSpace s) := by
  intro s
  induction s with
  | nil => simp [commaSpace]
  | cons a t ih =>
    by_cases ha : a = ','
    · subst ha
      cases t with
      | nil => simp [commaSpace]
      | cons d ds =>
        rw [commaSpace_comma_cons]
        by_cases hd : isPySpace d = true
        · rw [if_pos hd]
          refine List.chain'_cons'.mpr ⟨?_, ih⟩
          intro y hy _
          rw [head?_commaSpace (d :: ds)] at hy
          simp only [List.head?_cons, Option.mem_def, Option.some.injEq] at hy
          subst hy
          exact hd
        · rw [if_neg hd]
          refine List.chain'_cons'.mpr ⟨?_, ?_⟩
          · intro y hy _
            simp only [List.head?_cons, Option.mem_def, Option.some.injEq] at hy
            subst hy
            decide
          · refine List.chain'_cons'.mpr ⟨?_, ih⟩
            intro y _ hc
            exact absurd hc (by decide)
    · rw [commaSpace_cons_ne t ha]
      refine List.chain'_cons'.mpr ⟨?_, ih⟩
      intro y _ hc
      exact absurd hc ha

/-- `commaSpace` is the identity when every comma is already followed by
whitespace. -/
theorem commaSpace_eq_self : ∀ {s : List Char},
    List.Chain' commaRel s → commaSpace s = s := by
  intro s
  induction s with
  | nil => intro _; rfl
  | cons a t ih =>
    intro h
    by_cases ha : a = ','
    · subst ha
      cases t with
      | nil => rfl
      | cons d ds =>
        have hd : isPySpace d = true := (List.chain'_cons'.mp h).1 d (by simp) rfl
        rw [commaSpace_comma_cons, if_pos hd, ih h.tail]
    · rw [commaSpace_cons_ne t ha, ih h.tail]

/-! #### Punctuation handling and the composed whitespace stage -/

/-- A single-character space-replacement map only introduces spaces. -/
theorem mem_map_spaceRep {p : Char} {s : List Char} {c : Char}
    (h : c ∈ s.map (fun x => if x = p then ' ' else x)) : c = ' ' ∨ c ∈ s := by
  obtain ⟨a, ha, hc⟩ := List.mem_map.mp h
  by_cases hap : a = p
  · rw [hap, if_pos rfl] at hc
    exact Or.inl hc.symm
  · rw [if_neg hap] at hc
    exact Or.inr (hc ▸ ha)

/-- Characters of a `handlePunct` result (default meaningful punctuation). -/
theorem mem_handlePunct {m : List (Char × Char)} {agg : Bool} {s : List Char} {c : Char}
    (h : c ∈ handlePunct ⟨m, defaultMeaningful⟩ agg s) : c = ' ' ∨ c ∈ s := by
  cases agg with
  | true =>
    have h1 : c ∈ ((s.map (fun x => if x = '.' then ' ' else x)).map
        (fun x => if x = ',' then ' ' else x)).map (fun x => if x = '/' then ' ' else x) :=
      List.mem_filter.mp h |>.1
    rcases mem_map_spaceRep h1 with h2 | h2
    · exact Or.inl h2
    rcases mem_map_spaceRep h2 with h3 | h3
    · exact Or.inl h3
    rcases mem_map_spaceRep h3 with h4 | h4
    · exact Or.inl h4
    · exact Or.inr h4
  | false =>
    have h1 : c ∈ s.map (fun x => if x = '-' then ' ' else x) := List.mem_filter.mp h |>.1
    exact mem_map_spaceRep h1

/-- `stableBase` of the space implies `charOk` of the space. -/
theorem charOk_space {m : List (Char × Char)} {agg : Bool}
    (hsp : stableBase m ' ' = true) : charOk m agg ' ' = true := by
  cases agg with
  | true =>
    show (stableBase m ' ' && !(asciiPunctChars.contains ' ')) = true
    rw [hsp]
    rfl
  | false =>
    show (stableBase m ' ' &&
      (!(' ' == '-') && !(asciiPunctChars.contains ' ' && !(defaultMeaningful.contains ' ')))) = true
    rw [hsp]
    rfl

/-- `handlePunct` output characters are `charOk` when the input characters
are stable. -/
theorem handlePunct_charOk {m : List (Char × Char)} {agg : Bool} {s : List Char}
    (hsp : stableBase m ' ' = true)
    (hs : ∀ c ∈ s, stableBase m c = true) :
    ∀ c ∈ handlePunct ⟨m, defaultMeaningful⟩ agg s, charOk m agg c = true := by
  intro c hc
  have hbase : stableBase m c = true := by
    rcases mem_handlePunct hc with rfl | hmem
    · exact hsp
    · exact hs c hmem
  cases agg with
  | true =>
    have hp : (!(asciiPunctChars.contains c)) = true := (List.mem_filter.mp hc).2
    show (stableBase m c && !(asciiPunctChars.contains c)) = true
    rw [hbase, hp]
    rfl
  | false =>
    have h1 : c ∈ s.map (fun x => if x = '-' then ' ' else x) := (List.mem_filter.mp hc).1
    have hnd : (c == '-') = false := by
      obtain ⟨a, _, hca⟩ := List.mem_map.mp h1
      by_cases hap : a = '-'
      · rw [hap, if_pos rfl] at hca
        rw [← hca]
        decide
      · rw [if_neg hap] at hca
        rw [← hca]
        exact beq_eq_false_iff_ne.mpr hap
    have hp0 : (!(asciiPunctChars.contains c && !(defaultMeaningful.contains c) &&
        !(c == '-'))) = true := (List.mem_filter.mp hc).2
    rw [hnd] at hp0
    simp only [Bool.not_false, Bool.and_true, Bool.not_eq_true'] at hp0
    show (stableBase m c &&
      (!(c == '-') && !(asciiPunctChars.contains c && !(defaultMeaningful.contains c)))) = true
    rw [hbase, hnd, hp0]
    rfl

/-- `handlePunct` is the identity on `charOk` characters. -/
theorem handlePunct_eq_self {m : List (Char × Char)} {agg : Bool} {s : List Char}
    (h : ∀ c ∈ s, charOk m agg c = true) :
    handlePunct ⟨m, defaultMeaningful⟩ agg s = s := by
  cases agg with
  | true =>
    have hnp : ∀ c ∈ s, asciiPunctChars.contains c = false := by
      intro c hc
      have hx : (stableBase m c && !(asciiPunctChars.contains c)) = true := h c hc
      rcases Bool.and_eq_true_iff.mp hx with ⟨-, hx2⟩
      simpa using hx2
    have hm : ∀ p, p = '.' ∨ p = ',' ∨ p = '/' → ∀ c ∈ s, (if c = p then ' ' else c) = c := by
      intro p hp c hc
      have hne : c ≠ p := by
        intro hcp
        have hx := hnp c hc
        rw [hcp] at hx
        rcases hp with rfl | rfl | rfl
        · exact absurd hx (by decide)
        · exact absurd hx (by decide)
        · exact absurd hx (by decide)
      exact if_neg hne
    show (defaultMeaningful.foldl (fun s p => s.map (fun c => if c = p then ' ' else c)) s).filter _ = s
    have hfold : defaultMeaningful.foldl
        (fun s p => s.map (fun c => if c = p then ' ' else c)) s = s := by
      simp only [defaultMeaningful, List.foldl_cons, List.foldl_nil]
      rw [map_id_of (hm '.' (by simp)), map_id_of (hm ',' (by simp)),
        map_id_of (hm '/' (by simp))]
    rw [hfold]
    refine List.filter_eq_self.mpr (fun c hc => ?_)
    show (!(asciiPunctChars.contains c)) = true
    rw [hnp c hc]
    rfl
  | false =>
    have hcomp : ∀ c ∈ s, (c == '-') = false ∧
        (asciiPunctChars.contains c && !(defaultMeaningful.contains c)) = false := by
      intro c hc
      have hx : (stableBase m c &&
          (!(c == '-') && !(asciiPunctChars.contains c && !(defaultMeaningful.contains c)))) = true :=
        h c hc
      rcases Bool.and_eq_true_iff.mp hx with ⟨-, hx2⟩
      rcases Bool.and_eq_true_iff.mp hx2 with ⟨hx3, hx4⟩
      constructor
      · rcases Bool.eq_false_or_eq_true (c == '-') with hb | hb
        · rw [hb] at hx3; exact absurd hx3 (by decide)
        · exact hb
      · rcases Bool.eq_false_or_eq_true
            (asciiPunctChars.contains c && !(defaultMeaningful.contains c)) with hb | hb
        · rw [hb] at hx4; exact absurd hx4 (by decide)
        · exact hb
    show (s.map (fun c => if c = '-' then ' ' else c)).filter _ = s
    rw [map_id_of (fun c hc => if_neg (by
      have hx := (hcomp c hc).1
      exact fun he => by rw [he] at hx; exact absurd hx (by decide)))]
    refine List.filter_eq_self.mpr (fun c hc => ?_)
    show (!(asciiPunctChars.contains c && !(defaultMeaningful.contains c) && !(c == '-'))) = true
    rw [(hcomp c hc).1]
    simp only [Bool.not_false, Bool.and_true, (hcomp c hc).2]

/-! #### The composed whitespace stage -/

/-- `stableBase` components. -/
theorem stableBase_spec {m : List (Char × Char)} {c : Char} (h : stableBase m c = true) :
    allowedCat c = true ∧ pyLower c = c ∧
      (m.isEmpty = false → (m.lookup c).getD c = c) := by
  obtain ⟨h12, h3⟩ := Bool.and_eq_true_iff.mp h
  obtain ⟨h1, h2⟩ := Bool.and_eq_true_iff.mp h12
  refine ⟨h1, eq_of_beq h2, fun hm => ?_⟩
  rw [hm] at h3
  simp only [Bool.false_or] at h3
  exact eq_of_beq h3

/-- `charOk` implies `stableBase`. -/
theorem charOk_stable {m : List (Char × Char)} {agg : Bool} {c : Char}
    (h : charOk m agg c = true) : stableBase m c = true :=
  (Bool.and_eq_true_iff.mp h).1

/-- `removeSpecialSymbols` only keeps allowed-category characters. -/
theorem mem_removeSpecial {text : List Char} {c : Char}
    (h : c ∈ removeSpecialSymbols text) : allowedCat c = true :=
  List.of_mem_filter h

/-- `cleanWhitespace` with the default meaningful set, unfolded. -/
theorem cleanWs_unfold (m : List (Char × Char)) (s : List Char) :
    cleanWhitespace ⟨m, defaultMeaningful⟩ s = commaSpace (pyStrip (collapseWs s)) := rfl

/-- `noTwoSpace` is symmetric. -/
theorem noTwoSpace_symm (a b : Char) (h : noTwoSpace a b) : noTwoSpace b a :=
  fun hc => h ⟨hc.2, hc.1⟩

/-- Characters of a `cleanWhitespace` result. -/
theorem mem_cleanWs {m : List (Char × Char)} {s : List Char} {c : Char}
    (h : c ∈ cleanWhitespace ⟨m, defaultMeaningful⟩ s) : c = ' ' ∨ c ∈ s := by
  rw [cleanWs_unfold] at h
  rcases mem_commaSpace h with h1 | h1
  · exact Or.inl h1
  · rcases mem_collapseAux (mem_of_mem_pyStrip h1) with h2 | h2
    · exact Or.inl h2
    · exact Or.inr h2

/-- `cleanWhitespace` establishes the whitespace and comma invariants. -/
theorem cleanWs_shape (m : List (Char × Char)) (s : List Char) :
    List.Chain' noTwoSpace (cleanWhitespace ⟨m, defaultMeaningful⟩ s) ∧
    (∀ c ∈ (cleanWhitespace ⟨m, defaultMeaningful⟩ s).head?, isPySpace c = false) ∧
    (∀ c ∈ (cleanWhitespace ⟨m, defaultMeaningful⟩ s).getLast?, isPySpace c = false) ∧
    List.Chain' commaRel (cleanWhitespace ⟨m, defaultMeaningful⟩ s) := by
  rw [cleanWs_unfold]
  refine ⟨?_, ?_, ?_, commaOk_commaSpace _⟩
  · exact chain'_commaSpace (chain'_pyStrip noTwoSpace_symm (collapseAux_chain s).1)
  · intro c hc
    rw [head?_commaSpace] at hc
    exact (pyStrip_noEdge _).1 c hc
  · intro c hc
    rw [getLast?_commaSpace] at hc
    exact (pyStrip_noEdge _).2 c hc

/-- `cleanWhitespace` is the identity on the normal form's whitespace shape. -/
theorem cleanWs_eq_self {m : List (Char × Char)} {s : List Char}
    (hws : ∀ c ∈ s, isPySpace c = true → c = ' ')
    (hch : List.Chain' noTwoSpace s)
    (hh : ∀ c ∈ s.head?, isPySpace c = false)
    (hl : ∀ c ∈ s.getLast?, isPySpace c = false)
    (hcm : List.Chain' commaRel s) :
    cleanWhitespace ⟨m, defaultMeaningful⟩ s = s := by
  rw [cleanWs_unfold]
  show commaSpace (pyStrip (collapseAux false s)) = s
  rw [(collapseAux_eq_self s hws hch).1, pyStrip_eq_self hh hl, commaSpace_eq_self hcm]

/-! #### `normalize` produces normal forms and fixes them -/

/-- The pipeline of `normalize`, written out. -/
theorem normalize_unfold (m : List (Char × Char)) (agg : Bool) (text : List Char) :
    normalize ⟨m, defaultMeaningful⟩ agg text =
      if text.isEmpty then [] else
        pyStrip (cleanWhitespace ⟨m, defaultMeaningful⟩
          (handlePunct ⟨m, defaultMeaningful⟩ agg
            (cleanWhitespace ⟨m, defaultMeaningful⟩
              (if m.isEmpty then (removeSpecialSymbols text).map pyLower
               else applyCharMap m ((removeSpecialSymbols text).map pyLower))))) := rfl

/-- For a good character map, `normalize` always produces a normal form. -/
theorem normalize_normalForm {m : List (Char × Char)} (hg : GoodMap m)
    (agg : Bool) (text : List Char) :
    NormalForm m agg (normalize ⟨m, defaultMeaningful⟩ agg text) := by
  rw [normalize_unfold]
  by_cases he : text.isEmpty = true
  · rw [if_pos he]
    exact ⟨by intro c hc; simp at hc, by simp, by intro c hc; simp at hc,
      by intro c hc; simp at hc, by simp⟩
  · rw [if_neg he]
    have h3 : ∀ c ∈ (if m.isEmpty then (removeSpecialSymbols text).map pyLower
        else applyCharMap m ((removeSpecialSymbols text).map pyLower)),
        stableBase m c = true := by
      intro c hc
      have hex : ∃ a, allowedCat a = true ∧ postMap m (pyLower a) = c := by
        by_cases hm : m.isEmpty = true
        · rw [if_pos hm] at hc
          obtain ⟨a, ha, hfa⟩ := List.mem_map.mp hc
          exact ⟨a, mem_removeSpecial ha, by rw [postMap, if_pos hm]; exact hfa⟩
        · rw [if_neg hm] at hc
          obtain ⟨b, hb, hfb⟩ := List.mem_map.mp hc
          obtain ⟨a, ha, hfa⟩ := List.mem_map.mp hb
          refine ⟨a, mem_removeSpecial ha, ?_⟩
          rw [postMap, if_neg hm, hfa]
          exact hfb
      obtain ⟨a, haC, hpe⟩ := hex
      rw [← hpe]
      exact hg.1 a haC
    have h4 : ∀ c ∈ cleanWhitespace ⟨m, defaultMeaningful⟩
        (if m.isEmpty then (removeSpecialSymbols text).map pyLower
         else applyCharMap m ((removeSpecialSymbols text).map pyLower)),
        stableBase m c = true := by
      intro c hc
      rcases mem_cleanWs hc with rfl | hc
      · exact hg.2
      · exact h3 c hc
    have h5 : ∀ c ∈ handlePunct ⟨m, defaultMeaningful⟩ agg
        (cleanWhitespace ⟨m, defaultMeaningful⟩
          (if m.isEmpty then (removeSpecialSymbols text).map pyLower
           else applyCharMap m ((removeSpecialSymbols text).map pyLower))),
        charOk m agg c = true := handlePunct_charOk hg.2 h4
    have h6c : ∀ c ∈ cleanWhitespace ⟨m, defaultMeaningful⟩
        (handlePunct ⟨m, defaultMeaningful⟩ agg
          (cleanWhitespace ⟨m, defaultMeaningful⟩
            (if m.isEmpty then (removeSpecialSymbols text).map pyLower
             else applyCharMap m ((removeSpecialSymbols text).map pyLower)))),
        charOk m agg c = true := by
      intro c hc
      rcases mem_cleanWs hc with rfl | hc
      · exact charOk_space hg.2
      · exact h5 c hc
    obtain ⟨h6n, h6h, h6l, h6m⟩ := cleanWs_shape m
      (handlePunct ⟨m, defaultMeaningful⟩ agg
        (cleanWhitespace ⟨m, defaultMeaningful⟩
          (if m.isEmpty then (removeSpecialSymbols text).map pyLower
           else applyCharMap m ((removeSpecialSymbols text).map pyLower))))
    rw [pyStrip_eq_self h6h h6l]
    exact ⟨h6c, h6n, h6h, h6l, h6m⟩

/-- `normalize` is the identity on normal forms. -/
theorem normalize_eq_self {m : List (Char × Char)} {agg : Bool} {s : List Char}
    (h : NormalForm m agg s) : normalize ⟨m, defaultMeaningful⟩ agg s = s := by
  by_cases hnil : s = []
  · subst hnil; rfl
  · have he : s.isEmpty = false := by
      cases s with
      | nil => exact absurd rfl hnil
      | cons a t => rfl
    have hstable : ∀ c ∈ s, stableBase m c = true :=
      fun c hc => charOk_stable (h.chars c hc)
    rw [normalize_unfold, if_neg (by rw [he]; exact Bool.false_ne_true)]
    have h1 : removeSpecialSymbols s = s :=
      List.filter_eq_self.mpr (fun c hc => (stableBase_spec (hstable c hc)).1)
    have h2 : s.map pyLower = s :=
      map_id_of (fun c hc => (stableBase_spec (hstable c hc)).2.1)
    have h3 : (if m.isEmpty then s else applyCharMap m s) = s := by
      by_cases hm : m.isEmpty = true
      · rw [if_pos hm]
      · rw [if_neg hm]
        refine map_id_of (fun c hc => ?_)
        exact (stableBase_spec (hstable c hc)).2.2 (Bool.eq_false_iff.mpr hm)
    have hws : ∀ c ∈ s, isPySpace c = true → c = ' ' := fun c hc hsp =>
      allowed_space_eq (stableBase_spec (hstable c hc)).1 hsp
    have h4 : cleanWhitespace ⟨m, defaultMeaningful⟩ s = s :=
      cleanWs_eq_self hws h.nodbl h.headOk h.lastOk h.comma
    have h5 : handlePunct ⟨m, defaultMeaningful⟩ agg s = s :=
      handlePunct_eq_self h.chars
    have h6 : pyStrip s = s := pyStrip_eq_self h.headOk h.lastOk
    rw [h1, h2, h3, h4, h5, h4, h6]

/-- C10 (amended): the claim's unconditional "for any character map" fails
(`c10_counterexample`), but for every stable character map — one whose
lowercase-then-map image of an allowed character is itself allowed,
lowercase-fixed and map-fixed, and which fixes the space; the Vietnamese
default map (`vnCharMap_good`) and the empty map both qualify — `normalize`
with the default meaningful punctuation is idempotent in both modes:
running it a second time on its own output changes nothing. -/
theorem c10_normalize_idempotent_for_stable_maps (m : List (Char × Char))
    (hg : GoodMap m) (agg : Bool) (x : String) :
    normalizeStr ⟨m, defaultMeaningful⟩ agg (normalizeStr ⟨m, defaultMeaningful⟩ agg x) =
      normalizeStr ⟨m, defaultMeaningful⟩ agg x := by
  show String.mk (normalize ⟨m, defaultMeaningful⟩ agg
      (normalize ⟨m, defaultMeaningful⟩ agg x.toList)) =
    String.mk (normalize ⟨m, defaultMeaningful⟩ agg x.toList)
  rw [normalize_eq_self (normalize_normalForm hg agg x.toList)]

/-- Witness for C10's amended idempotence theorem: the Vietnamese map is
stable, and on a concrete mixed input the second normalization pass is
checked to change nothing. -/
theorem c10_idempotent_witness :
    normalizeStr ⟨vnCharMap, defaultMeaningful⟩ false "TP.HCM,  Quận 1" = "tp.hcm, quan 1" ∧
    normalizeStr ⟨vnCharMap, defaultMeaningful⟩ false
        (normalizeStr ⟨vnCharMap, defaultMeaningful⟩ false "TP.HCM,  Quận 1") =
      normalizeStr ⟨vnCharMap, defaultMeaningful⟩ false "TP.HCM,  Quận 1" :=
  ⟨by decide, c10_normalize_idempotent_for_stable_maps vnCharMap vnCharMap_good false
    "TP.HCM,  Quận 1"⟩

/-! ## `address_parser_v3.py` and `address_database.py` — the three-tier parser

The embedding below follows the source statement by statement.  Floating-point
constants are modelled as exact rationals (`0.4 = 2/5`, `0.7 = 7/10`, …); all
of them are short decimal literals, and none of the comparisons the parser
performs on them can distinguish the two representations on the values that
actually arise. -/

/-- The `ParsedAddress` dataclass.  The `debug_info` dict is only written by
debug printing and never read; it is omitted. -/
structure ParsedAddress where
  ward : Option String
  district : Option String
  province : Option String
  ward_code : Option String
  district_code : Option String
  province_code : Option String
  confidence : ℚ
  valid : Bool
  match_method : String
deriving DecidableEq

/-- `ParsedAddress()` — every dataclass field at its default. -/
def ParsedAddress.empty : ParsedAddress :=
  ⟨none, none, none, none, none, none, 0, false, "none"⟩

/-- Python `dict` assignment on an insertion-ordered association list:
overwrite in place, or append a new binding. -/
def dictInsert : List (String × String) → String → String → List (String × String)
  | [], k, v => [(k, v)]
  | (k0, v0) :: rest, k, v =>
    if k0 = k then (k0, v) :: rest else (k0, v0) :: dictInsert rest k v

/-- The `AddressDatabase` attributes, exactly the ones `__init__` assigns
(via `_load_json_files`, `_build_lookup_maps`, `_build_hierarchy_maps`, the
normalizer, `_build_tries` and `_build_lcs_candidates`).  The
`admin_handler`/`prefix_router` objects are never read on the `parse` path
and are omitted.  There is no `norm_config` attribute — `__init__` never
assigns one.  Raw entity rows are `(Code, Name)` for provinces and
`(Code, Name, ParentCode)` for districts (parent = province) and wards
(parent = district). -/
structure AddressDatabase where
  provinces : List (String × String)
  districts : List (String × String × String)
  wards : List (String × String × String)
  province_name_to_code : List (String × String)
  district_name_to_codes : List (String × List String)
  ward_name_to_codes : List (String × List String)
  district_to_province : List (String × String)
  ward_to_district : List (String × String)
  normalizer : NormCfg
  province_trie : Trie
  district_trie : Trie
  ward_trie : Trie
  province_candidates : List (String × List String)
  district_candidates : List (String × List String)
  ward_candidates : List (String × List String)

/-- `AddressDatabase.__init__` on already-loaded entity rows: lookup maps,
hierarchy maps, the (map-less) `TextNormalizer()`, alias tries (district and
ward names are `.strip()`ped before alias generation, provinces are not), and
the pre-tokenized aggressive-normalized LCS candidate lists keyed by the
lookup maps' keys. -/
def buildDatabase (provinces : List (String × String))
    (districts : List (String × String × String))
    (wards : List (String × String × String)) : AddressDatabase :=
  let pn2c := provinces.foldl (fun m p => dictInsert m p.2 p.1) []
  let dn2cs := districts.foldl (fun m d => appendAt m d.2.1 d.1) []
  let wn2cs := wards.foldl (fun m w => appendAt m w.2.1 w.1) []
  { provinces := provinces, districts := districts, wards := wards,
    province_name_to_code := pn2c,
    district_name_to_codes := dn2cs,
    ward_name_to_codes := wn2cs,
    district_to_province := districts.foldl (fun m d => dictInsert m d.1 d.2.2) [],
    ward_to_district := wards.foldl (fun m w => dictInsert m w.1 w.2.2) [],
    normalizer := dbNormalizer,
    province_trie := provinces.foldl (fun t p =>
      (generateAliases dbNormalizer p.2).foldl (fun t a => Trie.insert t a p.2) t) Trie.empty,
    district_trie := districts.foldl (fun t d =>
      (generateAliases dbNormalizer (String.mk (pyStrip d.2.1.toList))).foldl
        (fun t a => Trie.insert t a (String.mk (pyStrip d.2.1.toList))) t) Trie.empty,
    ward_trie := wards.foldl (fun t w =>
      (generateAliases dbNormalizer (String.mk (pyStrip w.2.1.toList))).foldl
        (fun t a => Trie.insert t a (String.mk (pyStrip w.2.1.toList))) t) Trie.empty,
    province_candidates :=
      pn2c.map (fun p => (p.1, pySplit (normalizeStr dbNormalizer true p.1))),
    district_candidates :=
      dn2cs.map (fun d => (d.1, pySplit (normalizeStr dbNormalizer true d.1))),
    ward_candidates :=
      wn2cs.map (fun w => (w.1, pySplit (normalizeStr dbNormalizer true w.1))) }

/-- `AddressParser._find_valid_district_code(district_name, province_name)`:
the first code of the district name whose recorded province is the (truthy)
code of the province name. -/
def findValidDistrictCode (db : AddressDatabase) (dn pn : String) : Option String :=
  match db.province_name_to_code.lookup pn with
  | none => none
  | some pc =>
    if pc = "" then none
    else ((db.district_name_to_codes.lookup dn).getD []).find?
      (fun dc => db.district_to_province.lookup dc == some pc)

/-- `AddressParser._find_valid_ward_code(ward_name, district_name,
province_name)`. -/
def findValidWardCode (db : AddressDatabase) (wn dn pn : String) : Option String :=
  match findValidDistrictCode db dn pn with
  | none => none
  | some dc =>
    if dc = "" then none
    else ((db.ward_name_to_codes.lookup wn).getD []).find?
      (fun wc => db.ward_to_district.lookup wc == some dc)

/-- `AddressDatabase.get_districts_in_province`.  The source indexes
`district_name_to_codes[name]` directly; candidate names are exactly that
map's keys by construction, so the lookup cannot miss (`getD []` here). -/
def getDistrictsInProvince (db : AddressDatabase) (pn : String) :
    List (String × List String) :=
  match db.province_name_to_code.lookup pn with
  | none => []
  | some pc =>
    if pc = "" then []
    else db.district_candidates.filter (fun c =>
      ((db.district_name_to_codes.lookup c.1).getD []).any
        (fun code => db.district_to_province.lookup code == some pc))

/-- `AddressDatabase.get_wards_in_district` (its internal
`_find_valid_district_code` is line-for-line the parser's). -/
def getWardsInDistrict (db : AddressDatabase) (dn pn : String) :
    List (String × List String) :=
  match findValidDistrictCode db dn pn with
  | none => []
  | some dc =>
    if dc = "" then []
    else db.ward_candidates.filter (fun c =>
      ((db.ward_name_to_codes.lookup c.1).getD []).any
        (fun code => db.ward_to_district.lookup code == some dc))

/-- The shared "Add codes" epilogue of `_try_trie_match`, `_try_lcs_match`
and `_try_edit_match`: starting from a fresh `ParsedAddress` holding only the
three names, set `province_code` / `district_code` / `ward_code` under the
source's truthiness guards. -/
def addCodes (db : AddressDatabase) (p d w : Option String) : ParsedAddress :=
  { province := p, district := d, ward := w,
    province_code :=
      if pyTruthy p then db.province_name_to_code.lookup (p.getD "") else none,
    district_code :=
      if pyTruthy d && pyTruthy p then
        findValidDistrictCode db (d.getD "") (p.getD "") else none,
    ward_code :=
      if pyTruthy w && pyTruthy d && pyTruthy p then
        findValidWardCode db (w.getD "") (d.getD "") (p.getD "") else none,
    confidence := 0, valid := false, match_method := "none" }

/-- `AddressParser._select_best_match`: Python stable-sorts descending by the
key `(end − start, end)` and takes the head, i.e. the earliest entry
attaining the lexicographic maximum; the fold below replaces the running best
only on a strictly greater key, which returns exactly that entry.  The span
length is an `int` difference in the source, hence `ℤ` here. -/
def selectBestMatch (ms0 : List (String × Nat × Nat)) : Option String :=
  match ms0 with
  | [] => none
  | m :: ms =>
    some ((ms.foldl (fun best x =>
      if decide (((best.2.2 : ℤ) - best.2.1) < ((x.2.2 : ℤ) - x.2.1)) ||
         ((((x.2.2 : ℤ) - x.2.1) == ((best.2.2 : ℤ) - best.2.1)) &&
           decide (best.2.2 < x.2.2))
      then x else best) m).1)

/-- The span-recovery loop of `_try_trie_match`: under
`if <name> and <matches>:`, the first match (source order) carrying the
selected name. -/
def firstSpan (ms0 : List (String × Nat × Nat)) (name : Option String) :
    Option (Nat × Nat) :=
  if pyTruthy name && !ms0.isEmpty then
    (ms0.find? (fun x => x.1 == name.getD "")).map (fun x => (x.2.1, x.2.2))
  else none

/-- Masking: every token with index in `[span.1, span.2)` becomes `"___"`. -/
def maskTokens (tokens : List String) (span : Nat × Nat) : List String :=
  tokens.mapIdx (fun i t => if span.1 ≤ i && i < span.2 then "___" else t)

/-- The name-selection part of `_try_trie_match`: province on the full text,
district on the province-masked text, ward on the text masked by both found
spans. -/
def trieNames (db : AddressDatabase) (normalized : String) :
    Option String × Option String × Option String :=
  let tokens := pySplit normalized
  let pMatches := db.province_trie.searchInText normalized
  let province := selectBestMatch pMatches
  let pSpan := firstSpan pMatches province
  let dText := match pSpan with
    | some sp => joinSpace (maskTokens tokens sp)
    | none => normalized
  let dMatches := db.district_trie.searchInText dText
  let district := selectBestMatch dMatches
  let dSpan := firstSpan dMatches district
  let wText :=
    if pSpan.isSome || dSpan.isSome then
      joinSpace (match dSpan with
        | some sp => maskTokens (match pSpan with
            | some sp2 => maskTokens tokens sp2
            | none => tokens) sp
        | none => match pSpan with
            | some sp2 => maskTokens tokens sp2
            | none => tokens)
    else normalized
  let wMatches := db.ward_trie.searchInText wText
  (province, district, selectBestMatch wMatches)

/-- `AddressParser._try_trie_match`: names, then the shared code epilogue. -/
def tryTrieMatch (db : AddressDatabase) (normalized : String) : ParsedAddress :=
  addCodes db (trieNames db normalized).1 (trieNames db normalized).2.1
    (trieNames db normalized).2.2

/-- `LCSMatcher(threshold=0.4)`. -/
def lcsThreshold : ℚ := 2/5

/-- The name-selection part of `_try_lcs_match`: start from the trie names,
clear a ward/district whose code is falsy, then the three hierarchical
search cases. -/
def lcsNames (db : AddressDatabase) (input : List String) (tr : ParsedAddress) :
    Option String × Option String × Option String :=
  let w0 := if pyTruthy tr.ward && !(pyTruthy tr.ward_code) then none else tr.ward
  let d0 := if pyTruthy tr.district && !(pyTruthy tr.district_code) then none
    else tr.district
  let p0 := tr.province
  if !(pyTruthy p0) then
    let p1 := match findBestMatchLcs lcsThreshold input db.province_candidates
        "province" with
      | some m => some m.entity_name
      | none => p0
    let d1 := if pyTruthy p1 then
        match findBestMatchLcs lcsThreshold input
            (getDistrictsInProvince db (p1.getD "")) "district" with
        | some m => some m.entity_name
        | none => d0
      else d0
    let w1 := if pyTruthy p1 && pyTruthy d1 then
        match findBestMatchLcs lcsThreshold input
            (getWardsInDistrict db (d1.getD "") (p1.getD "")) "ward" with
        | some m => some m.entity_name
        | none => w0
      else w0
    (p1, d1, w1)
  else if pyTruthy p0 && !(pyTruthy d0) then
    match findBestMatchLcs lcsThreshold input
        (getDistrictsInProvince db (p0.getD "")) "district" with
    | some m =>
      let w1 := match findBestMatchLcs lcsThreshold input
          (getWardsInDistrict db m.entity_name (p0.getD "")) "ward" with
        | some mw => some mw.entity_name
        | none => w0
      (p0, some m.entity_name, w1)
    | none => (p0, d0, w0)
  else if pyTruthy p0 && pyTruthy d0 && !(pyTruthy w0) then
    let w1 := match findBestMatchLcs lcsThreshold input
        (getWardsInDistrict db (d0.getD "") (p0.getD "")) "ward" with
      | some m => some m.entity_name
      | none => w0
    (p0, d0, w1)
  else (p0, d0, w0)

/-- `AddressParser._try_lcs_match`. -/
def tryLcsMatch (db : AddressDatabase) (input : List String)
    (tr : ParsedAddress) : ParsedAddress :=
  addCodes db (lcsNames db input tr).1 (lcsNames db input tr).2.1
    (lcsNames db input tr).2.2

/-- The `EditDistanceMatch` dataclass. -/
structure EditDistanceMatch where
  entity_name : String
  entity_type : String
  edit_distance : Nat
  normalized_score : ℚ
deriving DecidableEq

/-- The candidate loop of `EditDistanceMatcher.find_best_match`: accept when
`distance <= max_distance and distance < best_distance`; `best_distance`
starts at `float('inf')`, modelled as `none` (so `getD (d + 1)` makes the
comparison with infinity succeed). -/
def editGo (k : Nat) (inputPhrase : String) (etype : String) :
    Option EditDistanceMatch → Option Nat → List (String × List String) →
    Option EditDistanceMatch
  | best, _, [] => best
  | best, bestDist, (name, toks) :: rest =>
    let candPhrase := joinSpace toks
    let d := boundedEditDistance inputPhrase.toList candPhrase.toList k
    if d ≤ k ∧ d < bestDist.getD (d + 1) then
      let maxLen := max inputPhrase.length candPhrase.length
      editGo k inputPhrase etype
        (some ⟨name, etype, d,
          if 0 < maxLen then 1 - (d : ℚ) / (maxLen : ℚ) else 0⟩)
        (some d) rest
    else editGo k inputPhrase etype best bestDist rest

/-- `EditDistanceMatcher.find_best_match(input_tokens, candidates,
entity_type)`: tokens are joined into phrases before the distance is taken. -/
def findBestMatchEdit (k : Nat) (input_tokens : List String)
    (cands : List (String × List String)) (etype : String) :
    Option EditDistanceMatch :=
  editGo k (joinSpace input_tokens) etype none none cands

/-- `EditDistanceMatcher(max_distance=2)`. -/
def editMaxDistance : Nat := 2

/-- The name-selection part of `_try_edit_match` — structurally identical to
`lcsNames` with the edit-distance matcher. -/
def editNames (db : AddressDatabase) (input : List String) (lr : ParsedAddress) :
    Option String × Option String × Option String :=
  let w0 := if pyTruthy lr.ward && !(pyTruthy lr.ward_code) then none else lr.ward
  let d0 := if pyTruthy lr.district && !(pyTruthy lr.district_code) then none
    else lr.district
  let p0 := lr.province
  if !(pyTruthy p0) then
    let p1 := match findBestMatchEdit editMaxDistance input db.province_candidates
        "province" with
      | some m => some m.entity_name
      | none => p0
    let d1 := if pyTruthy p1 then
        match findBestMatchEdit editMaxDistance input
            (getDistrictsInProvince db (p1.getD "")) "district" with
        | some m => some m.entity_name
        | none => d0
      else d0
    let w1 := if pyTruthy p1 && pyTruthy d1 then
        match findBestMatchEdit editMaxDistance input
            (getWardsInDistrict db (d1.getD "") (p1.getD "")) "ward" with
        | some m => some m.entity_name
        | none => w0
      else w0
    (p1, d1, w1)
  else if pyTruthy p0 && !(pyTruthy d0) then
    match findBestMatchEdit editMaxDistance input
        (getDistrictsInProvince db (p0.getD "")) "district" with
    | some m =>
      let w1 := match findBestMatchEdit editMaxDistance input
          (getWardsInDistrict db m.entity_name (p0.getD "")) "ward" with
        | some mw => some mw.entity_name
        | none => w0
      (p0, some m.entity_name, w1)
    | none => (p0, d0, w0)
  else if pyTruthy p0 && pyTruthy d0 && !(pyTruthy w0) then
    let w1 := match findBestMatchEdit editMaxDistance input
        (getWardsInDistrict db (d0.getD "") (p0.getD "")) "ward" with
      | some m => some m.entity_name
      | none => w0
    (p0, d0, w1)
  else (p0, d0, w0)

/-- `AddressParser._try_edit_match`. -/
def tryEditMatch (db : AddressDatabase) (input : List String)
    (lr : ParsedAddress) : ParsedAddress :=
  addCodes db (editNames db input lr).1 (editNames db input lr).2.1
    (editNames db input lr).2.2

/-- `AddressParser._is_valid_result`: returns `False` (without touching the
result) when the province or its code is falsy; otherwise clears an invalid
district and an invalid ward, sets `valid`, and returns `True`.  The pair
returned here is (return value, the result object afterwards). -/
def isValidResult (r : ParsedAddress) : Bool × ParsedAddress :=
  if !(pyTruthy r.province) then (false, r)
  else if !(pyTruthy r.province_code) then (false, r)
  else
    let r1 := if pyTruthy r.district && !(pyTruthy r.district_code) then
        { r with district := none, district_code := none } else r
    let r2 := if pyTruthy r1.ward && !(pyTruthy r1.ward_code) then
        { r1 with ward := none, ward_code := none } else r1
    (true, { r2 with valid := true })

/-- The tier cascade of `AddressParser.parse` past normalization, on the
normalized text.  `_is_valid_result` mutates the result only on its `True`
path, so a failing tier hands its unmodified result to the next tier, and a
passing tier's mutated result is the one returned (its post-mutation `ward` /
`district` drive the confidence constant). -/
def parseCore (db : AddressDatabase) (normalized : String) : ParsedAddress :=
  let input_tokens := pySplit normalized
  let t1 := tryTrieMatch db normalized
  let v1 := isValidResult t1
  if v1.1 then { v1.2 with match_method := "trie", confidence := 1 }
  else
    let t2 := tryLcsMatch db input_tokens t1
    let v2 := isValidResult t2
    if v2.1 then
      { v2.2 with
        match_method := "lcs",
        confidence := if pyTruthy v2.2.ward then 7/10
          else if pyTruthy v2.2.district then 3/5 else 1/2 }
    else
      let t3 := tryEditMatch db input_tokens t2
      let v3 := isValidResult t3
      if v3.1 then
        { v3.2 with
          match_method := "edit_distance",
          confidence := if pyTruthy v3.2.ward then 1/2
            else if pyTruthy v3.2.district then 2/5 else 3/10 }
      else ParsedAddress.empty

/-- A Python runtime error surfaced by the embedding. -/
inductive PyErr where
  | attributeError (obj attr : String)
deriving DecidableEq

/-- `AddressParser.parse(text)`: empty or whitespace-only input returns the
default `ParsedAddress()`; any other input evaluates `self.db.norm_config`
(line 102) — an attribute `AddressDatabase.__init__` never assigns — and
raises `AttributeError` before any tier runs. -/
def parse (db : AddressDatabase) (text : String) : Except PyErr ParsedAddress :=
  if text == "" || (pyStrip text.toList).isEmpty then Except.ok ParsedAddress.empty
  else Except.error (.attributeError "AddressDatabase" "norm_config")

/-! ### The hierarchy invariant (claim C1) -/

/-- All six name/code fields absent. -/
def allEmptyAddr (r : ParsedAddress) : Bool :=
  r.province == none && r.district == none && r.ward == none &&
  r.province_code == none && r.district_code == none && r.ward_code == none

/-- A truthy district carries a truthy code recorded under the returned
province. -/
def districtOk (db : AddressDatabase) (r : ParsedAddress) : Bool :=
  !(pyTruthy r.district) ||
  (pyTruthy r.district_code &&
    (db.district_to_province.lookup (r.district_code.getD "") == r.province_code))

/-- A truthy ward implies a truthy district, and carries a truthy code
recorded under the returned district. -/
def wardOk (db : AddressDatabase) (r : ParsedAddress) : Bool :=
  !(pyTruthy r.ward) ||
  (pyTruthy r.district && pyTruthy r.ward_code &&
    (db.ward_to_district.lookup (r.ward_code.getD "") == r.district_code))

/-- The full result invariant of claim C1: all-empty and invalid, or valid
with a truthy resolved province and hierarchically consistent district and
ward. -/
def checkInvariant (db : AddressDatabase) (r : ParsedAddress) : Bool :=
  if r.valid then
    pyTruthy r.province && pyTruthy r.province_code &&
      districtOk db r && wardOk db r
  else allEmptyAddr r

/-- A one-province, one-district toy database for concrete runs. -/
def db0 : AddressDatabase :=
  buildDatabase [("01", "Ha Noi")] [("001", "Cau Giay", "01")] []

/-- Sanity: the toy database's tier-1 run on `"cau ha noi"` finds the
province (span 1–3), masks it, and finds no district in the remainder. -/
theorem db0_trie_run :
    trieNames db0 "cau ha noi" = (some "Ha Noi", none, none) ∧
    (parseCore db0 "cau ha noi").match_method = "trie" ∧
    (parseCore db0 "cau ha noi").province = some "Ha Noi" ∧
    (parseCore db0 "cau ha noi").district = none ∧
    getDistrictsInProvince db0 "Ha Noi" = [("Cau Giay", ["cau", "giay"])] ∧
    parse db0 "  " = Except.ok ParsedAddress.empty := by
  refine ⟨by decide, by decide, by decide, by decide, by decide, rfl⟩

/-! ### Lemmas about code resolution and validation -/

/-- Truthiness of an optional string, unfolded. -/
theorem pyTruthy_some_iff {o : Option String} :
    pyTruthy o = true ↔ ∃ s, o = some s ∧ s ≠ "" := by
  cases o with
  | none => simp [pyTruthy]
  | some s => simp [pyTruthy]

/-- A successful `_find_valid_district_code` has resolved the province and
returns a code recorded under it. -/
theorem findValidDistrictCode_spec {db : AddressDatabase} {dn pn dc : String}
    (h : findValidDistrictCode db dn pn = some dc) :
    pyTruthy (db.province_name_to_code.lookup pn) = true ∧
    (db.district_to_province.lookup dc == db.province_name_to_code.lookup pn) = true := by
  unfold findValidDistrictCode at h
  cases hpc : db.province_name_to_code.lookup pn with
  | none => rw [hpc] at h; exact absurd h (by simp)
  | some pc =>
    rw [hpc] at h
    dsimp only at h
    by_cases hpe : pc = ""
    · rw [if_pos hpe] at h; exact absurd h (by simp)
    · rw [if_neg hpe] at h
      refine ⟨by simp [pyTruthy, hpe], ?_⟩
      simpa using List.find?_some h

/-- A successful `_find_valid_ward_code` has resolved a truthy district code
and returns a ward code recorded under it. -/
theorem findValidWardCode_spec {db : AddressDatabase} {wn dn pn wc : String}
    (h : findValidWardCode db wn dn pn = some wc) :
    ∃ dc, findValidDistrictCode db dn pn = some dc ∧ dc ≠ "" ∧
      (db.ward_to_district.lookup wc == some dc) = true := by
  unfold findValidWardCode at h
  cases hdc : findValidDistrictCode db dn pn with
  | none => rw [hdc] at h; exact absurd h (by simp)
  | some dc =>
    rw [hdc] at h
    dsimp only at h
    by_cases hde : dc = ""
    · rw [if_pos hde] at h; exact absurd h (by simp)
    · rw [if_neg hde] at h
      exact ⟨dc, rfl, hde, by simpa using List.find?_some h⟩

/-- If the code epilogue produced a truthy district code, the district name
was truthy and the code resolves to the recorded province code. -/
theorem addCodes_district_code_spec {db : AddressDatabase} {p d w : Option String}
    (h : pyTruthy (addCodes db p d w).district_code = true) :
    pyTruthy (addCodes db p d w).district = true ∧
    (db.district_to_province.lookup ((addCodes db p d w).district_code.getD "") ==
      (addCodes db p d w).province_code) = true := by
  have hdc : (addCodes db p d w).district_code =
      if pyTruthy d && pyTruthy p then
        findValidDistrictCode db (d.getD "") (p.getD "") else none := rfl
  by_cases hg : (pyTruthy d && pyTruthy p) = true
  · obtain ⟨hd2, hp2⟩ := Bool.and_eq_true_iff.mp hg
    rw [hdc, if_pos hg] at h
    obtain ⟨dc, hdc2, -⟩ := pyTruthy_some_iff.mp h
    obtain ⟨-, hres⟩ := findValidDistrictCode_spec hdc2
    refine ⟨hd2, ?_⟩
    have e1 : (addCodes db p d w).district_code = some dc := by
      rw [hdc, if_pos hg, hdc2]
    have e2 : (addCodes db p d w).province_code =
        db.province_name_to_code.lookup (p.getD "") := by
      show (if pyTruthy p then db.province_name_to_code.lookup (p.getD "") else none) = _
      rw [if_pos hp2]
    rw [e1, e2]
    exact hres
  · rw [hdc, if_neg hg] at h
    exact absurd h (by simp [pyTruthy])

/-- If the code epilogue produced a truthy ward code, ward, district and
district code were all truthy and the ward code resolves to the recorded
district code. -/
theorem addCodes_ward_code_spec {db : AddressDatabase} {p d w : Option String}
    (h : pyTruthy (addCodes db p d w).ward_code = true) :
    pyTruthy (addCodes db p d w).ward = true ∧
    pyTruthy (addCodes db p d w).district = true ∧
    pyTruthy (addCodes db p d w).district_code = true ∧
    (db.ward_to_district.lookup ((addCodes db p d w).ward_code.getD "") ==
      (addCodes db p d w).district_code) = true := by
  have hwc : (addCodes db p d w).ward_code =
      if pyTruthy w && pyTruthy d && pyTruthy p then
        findValidWardCode db (w.getD "") (d.getD "") (p.getD "") else none := rfl
  by_cases hg : (pyTruthy w && pyTruthy d && pyTruthy p) = true
  · obtain ⟨hwd, hp2⟩ := Bool.and_eq_true_iff.mp hg
    obtain ⟨hw2, hd2⟩ := Bool.and_eq_true_iff.mp hwd
    rw [hwc, if_pos hg] at h
    obtain ⟨wc, hwc2, -⟩ := pyTruthy_some_iff.mp h
    obtain ⟨dc, hdc2, hdcne, hres⟩ := findValidWardCode_spec hwc2
    have e1 : (addCodes db p d w).district_code = some dc := by
      show (if pyTruthy d && pyTruthy p then
        findValidDistrictCode db (d.getD "") (p.getD "") else none) = some dc
      rw [if_pos (by rw [hd2, hp2]; rfl), hdc2]
    refine ⟨hw2, hd2, ?_, ?_⟩
    · rw [e1]
      simp [pyTruthy, hdcne]
    · have e2 : (addCodes db p d w).ward_code = some wc := by
        rw [hwc, if_pos hg, hwc2]
      rw [e2, e1]
      exact hres
  · rw [hwc, if_neg hg] at h
    exact absurd h (by simp [pyTruthy])

/-- When `_is_valid_result` passes (truthy province and province code), it
returns `True`, marks the result valid, keeps province and code, and for each
of district and ward either keeps the field pair (and then the name was falsy
or its code truthy) or clears both (and then the code was falsy). -/
theorem isValidResult_pass {r : ParsedAddress}
    (hp : pyTruthy r.province = true) (hpc : pyTruthy r.province_code = true) :
    (isValidResult r).1 = true ∧
    (isValidResult r).2.valid = true ∧
    (isValidResult r).2.province = r.province ∧
    (isValidResult r).2.province_code = r.province_code ∧
    (((isValidResult r).2.district = r.district ∧
      (isValidResult r).2.district_code = r.district_code ∧
      (pyTruthy r.district = false ∨ pyTruthy r.district_code = true)) ∨
     ((isValidResult r).2.district = none ∧
      (isValidResult r).2.district_code = none ∧
      pyTruthy r.district_code = false)) ∧
    (((isValidResult r).2.ward = r.ward ∧
      (isValidResult r).2.ward_code = r.ward_code ∧
      (pyTruthy r.ward = false ∨ pyTruthy r.ward_code = true)) ∨
     ((isValidResult r).2.ward = none ∧
      (isValidResult r).2.ward_code = none ∧
      pyTruthy r.ward_code = false)) := by
  by_cases hd : (pyTruthy r.district && !(pyTruthy r.district_code)) = true
  · obtain ⟨hd1, hd2⟩ := Bool.and_eq_true_iff.mp hd
    have hd2' : pyTruthy r.district_code = false := by simpa using hd2
    by_cases hw : (pyTruthy r.ward && !(pyTruthy r.ward_code)) = true
    · obtain ⟨hw1, hw2⟩ := Bool.and_eq_true_iff.mp hw
      have hw2' : pyTruthy r.ward_code = false := by simpa using hw2
      have hE : isValidResult r = (true,
          { r with district := none, district_code := none,
                   ward := none, ward_code := none, valid := true }) := by
        unfold isValidResult
        rw [hp, hpc]
        simp only [Bool.not_true, Bool.false_eq_true, if_false]
        rw [if_pos hd]
        dsimp only
        rw [if_pos hw]
      rw [hE]
      exact ⟨rfl, rfl, rfl, rfl, Or.inr ⟨rfl, rfl, hd2'⟩, Or.inr ⟨rfl, rfl, hw2'⟩⟩
    · have hwdisj : pyTruthy r.ward = false ∨ pyTruthy r.ward_code = true := by
        cases hwa : pyTruthy r.ward
        · exact Or.inl rfl
        · right
          rw [hwa] at hw
          simpa using hw
      have hE : isValidResult r = (true,
          { r with district := none, district_code := none, valid := true }) := by
        unfold isValidResult
        rw [hp, hpc]
        simp only [Bool.not_true, Bool.false_eq_true, if_false]
        rw [if_pos hd]
        dsimp only
        rw [if_neg hw]
      rw [hE]
      exact ⟨rfl, rfl, rfl, rfl, Or.inr ⟨rfl, rfl, hd2'⟩, Or.inl ⟨rfl, rfl, hwdisj⟩⟩
  · have hddisj : pyTruthy r.district = false ∨ pyTruthy r.district_code = true := by
      cases hda : pyTruthy r.district
      · exact Or.inl rfl
      · right
        rw [hda] at hd
        simpa using hd
    by_cases hw : (pyTruthy r.ward && !(pyTruthy r.ward_code)) = true
    · obtain ⟨hw1, hw2⟩ := Bool.and_eq_true_iff.mp hw
      have hw2' : pyTruthy r.ward_code = false := by simpa using hw2
      have hE : isValidResult r = (true,
          { r with ward := none, ward_code := none, valid := true }) := by
        unfold isValidResult
        rw [hp, hpc]
        simp only [Bool.not_true, Bool.false_eq_true, if_false]
        rw [if_neg hd]
        rw [if_pos hw]
      rw [hE]
      exact ⟨rfl, rfl, rfl, rfl, Or.inl ⟨rfl, rfl, hddisj⟩, Or.inr ⟨rfl, rfl, hw2'⟩⟩
    · have hwdisj : pyTruthy r.ward = false ∨ pyTruthy r.ward_code = true := by
        cases hwa : pyTruthy r.ward
        · exact Or.inl rfl
        · right
          rw [hwa] at hw
          simpa using hw
      have hE : isValidResult r = (true, { r with valid := true }) := by
        unfold isValidResult
        rw [hp, hpc]
        simp only [Bool.not_true, Bool.false_eq_true, if_false]
        rw [if_neg hd]
        rw [if_neg hw]
      rw [hE]
      exact ⟨rfl, rfl, rfl, rfl, Or.inl ⟨rfl, rfl, hddisj⟩, Or.inl ⟨rfl, rfl, hwdisj⟩⟩

/-- The invariant ignores `match_method` and `confidence`. -/
theorem checkInvariant_update (db : AddressDatabase) (r : ParsedAddress)
    (mm : String) (cf : ℚ) :
    checkInvariant db { r with match_method := mm, confidence := cf } =
      checkInvariant db r := rfl

/-- Any tier result that passes `_is_valid_result` satisfies the full
hierarchy invariant, over an arbitrary database. -/
theorem addCodes_validated_ok (db : AddressDatabase) (p d w : Option String)
    (h : (isValidResult (addCodes db p d w)).1 = true) :
    checkInvariant db (isValidResult (addCodes db p d w)).2 = true := by
  have hp : pyTruthy (addCodes db p d w).province = true := by
    by_contra hcon
    have h0 : pyTruthy (addCodes db p d w).province = false := Bool.eq_false_iff.mpr hcon
    unfold isValidResult at h
    rw [h0] at h
    simp at h
  have hpc : pyTruthy (addCodes db p d w).province_code = true := by
    by_contra hcon
    have h0 : pyTruthy (addCodes db p d w).province_code = false := Bool.eq_false_iff.mpr hcon
    unfold isValidResult at h
    rw [hp, h0] at h
    simp at h
  obtain ⟨-, hval, hprov, hpcode, hdist, hward⟩ := isValidResult_pass hp hpc
  unfold checkInvariant
  rw [hval, if_pos rfl]
  have g1 : pyTruthy (isValidResult (addCodes db p d w)).2.province = true := by
    rw [hprov]; exact hp
  have g2 : pyTruthy (isValidResult (addCodes db p d w)).2.province_code = true := by
    rw [hpcode]; exact hpc
  have gd : districtOk db (isValidResult (addCodes db p d w)).2 = true := by
    unfold districtOk
    rcases hdist with ⟨he, hec, hdisj⟩ | ⟨he, hec, hcf⟩
    · rcases hdisj with hfd | htc
      · rw [he, hfd]
        rfl
      · obtain ⟨hdt, hres⟩ := addCodes_district_code_spec htc
        rw [he, hec, hpcode, htc, hres]
        simp
    · rw [he]
      rfl
  have gw : wardOk db (isValidResult (addCodes db p d w)).2 = true := by
    unfold wardOk
    rcases hward with ⟨he, hec, hdisj⟩ | ⟨he, hec, hcf⟩
    · rcases hdisj with hfw | hwc
      · rw [he, hfw]
        rfl
      · obtain ⟨hwt, hdt, hdct, hres⟩ := addCodes_ward_code_spec hwc
        rcases hdist with ⟨hde, hdec, -⟩ | ⟨-, -, hdcf⟩
        · rw [he, hec, hde, hdec, hdt, hwc, hres]
          simp
        · rw [hdcf] at hdct
          exact absurd hdct Bool.false_ne_true
    · rw [he]
      rfl
  rw [g1, g2, gd, gw]
  rfl

/-- C1: over an arbitrary database, every result the three-tier pipeline
delivers is either all-empty with `valid = false` (all tiers failed) or
`valid = true` with a truthy resolved province code, no district name without
a truthy district code resolving (in `district_to_province`) to the returned
province code, and no ward name without a district and a truthy ward code
resolving (in `ward_to_district`) to the returned district code.  The second
conjunct covers `parse` itself, whose only normal return (see C2) is the
default all-empty result. -/
theorem c1_parse_pipeline_invariant (db : AddressDatabase) (normalized : String) :
    checkInvariant db (parseCore db normalized) = true ∧
    ∀ r, parse db normalized = Except.ok r → checkInvariant db r = true := by
  constructor
  · simp only [parseCore]
    have ht : tryTrieMatch db normalized =
        addCodes db (trieNames db normalized).1 (trieNames db normalized).2.1
          (trieNames db normalized).2.2 := rfl
    by_cases h1 : (isValidResult (tryTrieMatch db normalized)).1 = true
    · rw [if_pos h1]
      rw [checkInvariant_update]
      rw [ht] at h1 ⊢
      exact addCodes_validated_ok db _ _ _ h1
    · rw [if_neg h1]
      have hl : tryLcsMatch db (pySplit normalized) (tryTrieMatch db normalized) =
          addCodes db
            (lcsNames db (pySplit normalized) (tryTrieMatch db normalized)).1
            (lcsNames db (pySplit normalized) (tryTrieMatch db normalized)).2.1
            (lcsNames db (pySplit normalized) (tryTrieMatch db normalized)).2.2 := rfl
      by_cases h2 : (isValidResult
          (tryLcsMatch db (pySplit normalized) (tryTrieMatch db normalized))).1 = true
      · rw [if_pos h2]
        rw [checkInvariant_update]
        rw [hl] at h2 ⊢
        exact addCodes_validated_ok db _ _ _ h2
      · rw [if_neg h2]
        have he : tryEditMatch db (pySplit normalized)
            (tryLcsMatch db (pySplit normalized) (tryTrieMatch db normalized)) =
            addCodes db
              (editNames db (pySplit normalized)
                (tryLcsMatch db (pySplit normalized) (tryTrieMatch db normalized))).1
              (editNames db (pySplit normalized)
                (tryLcsMatch db (pySplit normalized) (tryTrieMatch db normalized))).2.1
              (editNames db (pySplit normalized)
                (tryLcsMatch db (pySplit normalized) (tryTrieMatch db normalized))).2.2 := rfl
        by_cases h3 : (isValidResult (tryEditMatch db (pySplit normalized)
            (tryLcsMatch db (pySplit normalized) (tryTrieMatch db normalized)))).1 = true
        · rw [if_pos h3]
          rw [checkInvariant_update]
          rw [he] at h3 ⊢
          exact addCodes_validated_ok db _ _ _ h3
        · rw [if_neg h3]
          rfl
  · intro r hr
    unfold parse at hr
    by_cases hc : (normalized == "" || (pyStrip normalized.toList).isEmpty) = true
    · rw [if_pos hc] at hr
      have hre : ParsedAddress.empty = r := by
        injection hr
      rw [← hre]
      rfl
    · rw [if_neg hc] at hr
      exact absurd hr (by simp)

/-- C2: `parse` raises `AttributeError` on every input containing a
non-whitespace character (it reads the never-assigned `self.db.norm_config`
before any tier runs), and returns the default empty `ParsedAddress` on
empty or whitespace-only input. -/
theorem c2_parse_raises_attribute_error (db : AddressDatabase) (text : String) :
    (pyStrip text.toList ≠ [] →
      parse db text =
        Except.error (.attributeError "AddressDatabase" "norm_config")) ∧
    (pyStrip text.toList = [] → parse db text = Except.ok ParsedAddress.empty) := by
  constructor
  · intro h
    unfold parse
    have hc : (text == "" || (pyStrip text.toList).isEmpty) = false := by
      refine Bool.or_eq_false_iff.mpr ⟨?_, ?_⟩
      · refine beq_eq_false_iff_ne.mpr ?_
        intro hte
        subst hte
        exact h rfl
      · cases hps : pyStrip text.toList with
        | nil => exact absurd hps h
        | cons a t => rfl
    rw [if_neg (by rw [hc]; exact Bool.false_ne_true)]
  · intro h
    unfold parse
    rw [if_pos (by rw [h]; simp)]

/-- Witness for C2 on the toy database: a non-blank and a blank input. -/
theorem c2_attribute_error_witness :
    parse db0 "cau ha noi" =
      Except.error (.attributeError "AddressDatabase" "norm_config") ∧
    parse db0 "  " = Except.ok ParsedAddress.empty :=
  ⟨(c2_parse_raises_attribute_error db0 "cau ha noi").1 (by decide),
   (c2_parse_raises_attribute_error db0 "  ").2 (by decide)⟩

/-- Witness for C1: a concrete pipeline run and the blank-input return of
`parse`. -/
theorem c1_invariant_witness :
    checkInvariant db0 (parseCore db0 "cau ha noi") = true ∧
    checkInvariant db0 ParsedAddress.empty = true :=
  ⟨(c1_parse_pipeline_invariant db0 "cau ha noi").1,
   (c1_parse_pipeline_invariant db0 " ").2 ParsedAddress.empty rfl⟩

/-- C6 (corrected): when Tier 1 resolves a province (truthy
`province_code`), `_is_valid_result` accepts the trie result — district or
not — and `parse` returns it with `match_method = "trie"`; Tier 2 is never
entered.  In particular a province-only Tier-1 result keeps `district =
none` even when the LCS matcher would find a district among that province's
candidates (`c6_counterexample`). -/
theorem c6_trie_province_short_circuits (db : AddressDatabase) (normalized : String)
    (hpc : pyTruthy (tryTrieMatch db normalized).province_code = true) :
    (parseCore db normalized).match_method = "trie" ∧
    (parseCore db normalized).province = (tryTrieMatch db normalized).province ∧
    ((tryTrieMatch db normalized).district = none →
      (parseCore db normalized).district = none) := by
  have hp : pyTruthy (tryTrieMatch db normalized).province = true := by
    by_contra hcon
    have h0 : pyTruthy (tryTrieMatch db normalized).province = false :=
      Bool.eq_false_iff.mpr hcon
    have e : (tryTrieMatch db normalized).province_code =
        if pyTruthy (trieNames db normalized).1 then
          db.province_name_to_code.lookup ((trieNames db normalized).1.getD "")
        else none := rfl
    have e2 : pyTruthy (trieNames db normalized).1 = false := h0
    rw [e, e2, if_neg (by decide : ¬(false = true))] at hpc
    exact absurd hpc (by decide)
  obtain ⟨h1, hval, hprov, hpcode, hdist, hward⟩ := isValidResult_pass hp hpc
  simp only [parseCore]
  rw [if_pos h1]
  refine ⟨rfl, ?_, ?_⟩
  · show (isValidResult (tryTrieMatch db normalized)).2.province = _
    exact hprov
  · intro hdn
    show (isValidResult (tryTrieMatch db normalized)).2.district = none
    rcases hdist with ⟨he, -, -⟩ | ⟨he, -, -⟩
    · rw [he, hdn]
    · exact he

/-- Witness for the corrected C6 at the toy database. -/
theorem c6_short_circuit_witness :
    (parseCore db0 "cau ha noi").match_method = "trie" ∧
    (parseCore db0 "cau ha noi").province = (tryTrieMatch db0 "cau ha noi").province ∧
    ((tryTrieMatch db0 "cau ha noi").district = none →
      (parseCore db0 "cau ha noi").district = none) :=
  c6_trie_province_short_circuits db0 "cau ha noi" (by decide)

/-- C6 counterexample: on `"cau ha noi"` against a database with province
`"Ha Noi"` and its district `"Cau Giay"`, Tier 1 resolves the province but no
district, and the parser returns that province-only result with
`match_method = "trie"` — yet the Tier-2 LCS search over exactly that
province's district candidates would have matched `"Cau Giay"` (similarity
`2·1/(3+2) = 2/5`, at the threshold). -/
theorem c6_counterexample :
    (parseCore db0 "cau ha noi").match_method = "trie" ∧
    (parseCore db0 "cau ha noi").valid = true ∧
    (parseCore db0 "cau ha noi").province = some "Ha Noi" ∧
    (parseCore db0 "cau ha noi").district = none ∧
    findBestMatchLcs lcsThreshold (pySplit "cau ha noi")
        (getDistrictsInProvince db0 "Ha Noi") "district" =
      some ⟨"Cau Giay", "district", 2/5, 1⟩ := by
  refine ⟨by decide, by decide, by decide, by decide, ?_⟩
  have hc : getDistrictsInProvince db0 "Ha Noi" = [("Cau Giay", ["cau", "giay"])] := by
    decide
  have hlen : lcsLength (pySplit "cau ha noi") ["cau", "giay"] = 1 := by decide
  have hsim : lcsSimilarity (pySplit "cau ha noi") ["cau", "giay"] = 2/5 := by
    have hsp : pySplit "cau ha noi" = ["cau", "ha", "noi"] := by decide
    rw [hsp] at hlen ⊢
    simp [lcsSimilarity, hlen]
    norm_num
  rw [hc]
  show lcsGo lcsThreshold (pySplit "cau ha noi") "district" none 0
    [("Cau Giay", ["cau", "giay"])] = _
  simp only [lcsGo, hsim, hlen]
  rw [if_pos (by constructor <;> norm_num [lcsThreshold])]

end AddrClassifier
